import Mathlib

/-!
The class `Uint32Buffer` of NdbQueryBuilderImpl.hpp.

A shallow embedding of `class Uint32Buffer`
(storage/ndb/src/ndbapi/NdbQueryBuilderImpl.hpp) and theorems about it.

Conventions of the embedding.

* `Uint32` values are naturals below `UINT32_MOD = 2^32`; `size_t` values are
  naturals below `SIZE_T_MOD = 2^64` (an LP64 target).  Every C++ expression
  whose result is stored in or computed at one of these types is reduced
  modulo the width of that type, as unsigned arithmetic does.
* The storage `m_array` points at (either `m_local` or `m_extension`) is a
  function from word index to word.  The constructor does not initialise
  `m_local` and `new Uint32[n]` does not initialise the words it returns, so
  both are parameters of the model.
* `new Uint32[n]` either fails (`none`, the `NULL` the code tests for) or
  returns fresh storage (`some fresh`); the outcome is a parameter of every
  operation that may reach it.
* A `Uint32*` into the buffer is the index of the word it points at; `NULL`
  is `none`.
* A failed `assert` is the result `none` of an `Option`.
* Bytes are laid out inside a word in little-endian order.
-/

/-- Number of values of the type `Uint32`. -/
def UINT32_MOD : Nat := 4294967296

/-- Number of values of the type `size_t`. -/
def SIZE_T_MOD : Nat := 18446744073709551616

/-- The value of `sizeof(Uint32)`. -/
def sizeofUint32 : Nat := 4

/-- The assignment `a[i] = v` on a word array. -/
def storeWord (a : Nat → Nat) (i v : Nat) : Nat → Nat :=
  fun j => if j = i then v else a j

/-- The call `memcpy(&dst[dstOff], &src[srcOff], n*sizeof(Uint32))` on word
arrays that do not overlap. -/
def memcpyWords (dst : Nat → Nat) (dstOff : Nat) (src : Nat → Nat) (srcOff n : Nat) :
    Nat → Nat :=
  fun i => if dstOff ≤ i ∧ i < dstOff + n then src (srcOff + (i - dstOff)) else dst i

/-- Byte number `k` (0..3, in address order) of the word `w`. -/
def wordByte (w k : Nat) : Nat := (w / 256 ^ k) % 256

/-- The word whose four bytes, in address order, are `b0 b1 b2 b3`. -/
def wordOfBytes (b0 b1 b2 b3 : Nat) : Nat :=
  b0 + 256 * b1 + 65536 * b2 + 16777216 * b3

/-- Byte number `k` of the memory area holding the word array `a`. -/
def byteAt (a : Nat → Nat) (k : Nat) : Nat := wordByte (a (k / 4)) (k % 4)

/-- The call `memcpy(&a[dst], src, len)` copying `len` bytes: byte `k` of the
area starting at word `dst` becomes `src k` for `k < len`; every other byte
keeps its value. -/
def memcpyBytes (a : Nat → Nat) (dst : Nat) (src : Nat → Nat) (len : Nat) : Nat → Nat :=
  fun i =>
    if dst ≤ i ∧ 4 * (i - dst) < len then
      wordOfBytes
        (if 4 * (i - dst) + 0 < len then src (4 * (i - dst) + 0) else wordByte (a i) 0)
        (if 4 * (i - dst) + 1 < len then src (4 * (i - dst) + 1) else wordByte (a i) 1)
        (if 4 * (i - dst) + 2 < len then src (4 * (i - dst) + 2) else wordByte (a i) 2)
        (if 4 * (i - dst) + 3 < len then src (4 * (i - dst) + 3) else wordByte (a i) 3)
    else a i

/-- The data members of `class Uint32Buffer`.  `m_array` is the content of the
storage the C++ member `m_array` points at. -/
structure Uint32Buffer where
  m_array : Nat → Nat
  m_avail : Nat
  m_size : Nat
  m_memoryExhausted : Bool

namespace Uint32Buffer

/-- The constant `initSize`. -/
def initSize : Nat := 256

/-- The constructor `Uint32Buffer()`; `m_local` is the uninitialised content of
the local storage. -/
def ctor (m_local : Nat → Nat) : Uint32Buffer :=
  { m_array := m_local, m_avail := initSize, m_size := 0, m_memoryExhausted := false }

/-- Both fields of the buffer hold `Uint32` values. -/
def inRange (b : Uint32Buffer) : Prop :=
  b.m_avail < UINT32_MOD ∧ b.m_size < UINT32_MOD

instance (b : Uint32Buffer) : Decidable b.inRange := by
  unfold inRange; exact inferInstance

/-- The member `isMemoryExhausted()`. -/
def isMemoryExhausted (b : Uint32Buffer) : Bool := b.m_memoryExhausted

/-- The member `getSize()`. -/
def getSize (b : Uint32Buffer) : Nat := b.m_size

/-- The value `reqSize` computed by `alloc(count)`. -/
def reqSize (b : Uint32Buffer) (count : Nat) : Nat := (b.m_size + count) % SIZE_T_MOD

/-- The last three lines of `alloc`: `extend = &m_array[m_size]`,
`m_size += count`, `return extend`. -/
def allocExtend (b : Uint32Buffer) (count : Nat) : Option Nat × Uint32Buffer :=
  (some b.m_size, { b with m_size := ((b.m_size + count) % SIZE_T_MOD) % UINT32_MOD })

/-- The member `alloc(count)`.  `newBuf` is what `new Uint32[reqSize*2]` returns
if the call reaches it.  The result is the returned pointer and the state
after the call. -/
def alloc (b : Uint32Buffer) (count : Nat) (newBuf : Option (Nat → Nat)) :
    Option Nat × Uint32Buffer :=
  if b.reqSize count ≥ b.m_avail then
    if b.m_memoryExhausted then
      (none, b)
    else
      match newBuf with
      | some fresh =>
        allocExtend
          { b with
            m_array := memcpyWords fresh 0 b.m_array 0 b.m_size
            m_avail := ((b.reqSize count * 2) % SIZE_T_MOD) % UINT32_MOD }
          count
      | none => (none, { b with m_size := b.m_avail, m_memoryExhausted := true })
  else
    allocExtend b count

/-- The call of `alloc(count)` reaches `new Uint32[reqSize*2]`. -/
def callsNew (b : Uint32Buffer) (count : Nat) : Prop :=
  b.reqSize count ≥ b.m_avail ∧ b.m_memoryExhausted = false

instance (b : Uint32Buffer) (count : Nat) : Decidable (b.callsNew count) := by
  unfold callsNew; exact inferInstance

/-- The member `put(idx, value)`; `none` is the failed `assert(idx < m_size)`. -/
def put (b : Uint32Buffer) (idx value : Nat) : Option Uint32Buffer :=
  if idx < b.m_size then some { b with m_array := storeWord b.m_array idx value } else none

/-- The member `append(const Uint32 src)`. -/
def append (b : Uint32Buffer) (src : Nat) (newBuf : Option (Nat → Nat)) : Uint32Buffer :=
  if b.m_size < b.m_avail then
    { b with
      m_array := storeWord b.m_array b.m_size src
      m_size := (b.m_size + 1) % UINT32_MOD }
  else
    match b.alloc 1 newBuf with
    | (some dst, b1) => { b1 with m_array := storeWord b1.m_array dst src }
    | (none, b1) => b1

/-- The members `addr(idx)`, non-const overload. -/
def addr (b : Uint32Buffer) (idx : Nat) : Option Nat :=
  if !b.m_memoryExhausted && decide (b.m_size > idx) then some idx else none

/-- The members `addr(idx) const`, const overload. -/
def addr_const (b : Uint32Buffer) (idx : Nat) : Option Nat :=
  if !b.m_memoryExhausted && decide (b.m_size > idx) then some idx else none

/-- The word a `Uint32*` into the buffer points at. -/
def deref (b : Uint32Buffer) (p : Nat) : Nat := b.m_array p

/-- The member `get(idx)`; `none` is the failed `assert(idx < m_size)`. -/
def get (b : Uint32Buffer) (idx : Nat) : Option Nat :=
  if idx < b.m_size then some (b.m_array idx) else none

/-- The member `append(const Uint32Buffer& src)` for a source distinct from the
destination; `none` is the failed `assert(!src.isMemoryExhausted())` (or a
`memcpy` from the `NULL` returned by `src.addr()`). -/
def append_buffer (b src : Uint32Buffer) (newBuf : Option (Nat → Nat)) :
    Option Uint32Buffer :=
  if src.isMemoryExhausted then none
  else
    if src.getSize > 0 then
      match b.alloc src.getSize newBuf with
      | (some dst, b1) =>
        match src.addr_const 0 with
        | some p =>
          some { b1 with m_array := memcpyWords b1.m_array dst src.m_array p src.getSize }
        | none => none
      | (none, b1) => some b1
    else some b

/-- The value `wordCount` computed by `append(src, len)`. -/
def wordCount (len : Nat) : Nat := ((len + sizeofUint32 - 1) % SIZE_T_MOD) / sizeofUint32

/-- The member `append(const void* src, size_t len)`; `src k` is byte `k` of the
source. -/
def append_bytes (b : Uint32Buffer) (src : Nat → Nat) (len : Nat)
    (newBuf : Option (Nat → Nat)) : Uint32Buffer :=
  if len > 0 then
    match b.alloc (wordCount len) newBuf with
    | (some dst, b1) =>
      { b1 with
        m_array :=
          memcpyBytes (storeWord b1.m_array (dst + wordCount len - 1) 0) dst src len }
    | (none, b1) => b1
  else b

/-- The words of the buffer at offsets `0 .. m_size-1`. -/
def words (b : Uint32Buffer) : List Nat := (List.range b.m_size).map b.m_array

end Uint32Buffer

namespace Uint32Buffer

/-- Appending the words of a list one by one with `append(word)`, every
`new Uint32[..]` succeeding: `fresh k` is the storage `new` hands out when it is
reached during the `k`-th call. -/
def appendAll (fresh : Nat → Nat → Nat) (b : Uint32Buffer) : List Nat → Uint32Buffer
  | [] => b
  | w :: ws => appendAll (fun k => fresh (k + 1)) (b.append w (some (fresh 0))) ws

/-- Storage whose words are all zero. -/
def zeroWords : Nat → Nat := fun _ => 0

/-- A fresh buffer after `alloc(300)` whose `new Uint32[600]` failed. -/
def exhaustedBuffer : Uint32Buffer := ((ctor zeroWords).alloc 300 none).2

/-- A fresh buffer after a successful `alloc(2147483647)`, which grows the
capacity to 4294967294, and then `alloc(2147483646)`, which fits: size
4294967293, capacity 4294967294, not exhausted. -/
def nearFull : Uint32Buffer :=
  (((ctor zeroWords).alloc 2147483647 (some zeroWords)).2.alloc 2147483646 none).2

/-- A fresh buffer after `append(11)`, `append(22)`, `append(33)`. -/
def threeWords : Uint32Buffer := appendAll (fun _ => zeroWords) (ctor zeroWords) [11, 22, 33]

end Uint32Buffer

/-! The error codes, the operation definitions, the query definition, the
builder and the operands of NdbQueryBuilderImpl.hpp.

Conventions of the embedding.

* An `int` error code is an integer; the codes are the `#define`d constants.
* A pointer or reference to an `NdbColumnImpl` is the address of the column, a
  natural number; a pointer that may be `NULL` is an `Option`.
* A member function that changes the object or a reference argument returns
  the new values together with its result.
* The result of a pure virtual member (`getType()`, `isScanOperation()`), which
  the concrete subclass fixes, is a field of the object.
-/

/-- The constant `QRY_OPERAND_HAS_WRONG_TYPE`. -/
def QRY_OPERAND_HAS_WRONG_TYPE : Int := 4803

/-- The constant `QRY_OPERAND_ALREADY_BOUND`. -/
def QRY_OPERAND_ALREADY_BOUND : Int := 4810

/-- The enumeration `NdbQueryOperationDefImpl::Type`. -/
inductive NdbQueryOperationDefImpl.Type_ where
  | PrimaryKeyAccess
  | UniqueIndexAccess
  | TableScan
  | OrderedIndexScan
  deriving DecidableEq

/-- The members of `class NdbQueryOperationDefImpl` the numbering and the scan
test use: the results of the pure virtual members `getType()` and
`isScanOperation()`, and the data members `m_ix` and `m_id`. -/
structure NdbQueryOperationDefImpl where
  getType : NdbQueryOperationDefImpl.Type_
  isScanOperation : Bool
  m_ix : Nat
  m_id : Nat

namespace NdbQueryOperationDefImpl

/-- The constructor: `m_ix(ix), m_id(ix)`. -/
def ctor (type : Type_) (scan : Bool) (ix : Nat) : NdbQueryOperationDefImpl :=
  { getType := type, isScanOperation := scan, m_ix := ix, m_id := ix }

/-- The member `getQueryOperationIx()`. -/
def getQueryOperationIx (op : NdbQueryOperationDefImpl) : Nat := op.m_ix

/-- The member `getQueryOperationId()`. -/
def getQueryOperationId (op : NdbQueryOperationDefImpl) : Nat := op.m_id

/-- The member `assignQueryOperationId(Uint32& nodeId)`.  The result is the
returned value, the value of `nodeId` after the call and the operation after
the call. -/
def assignQueryOperationId (op : NdbQueryOperationDefImpl) (nodeId : Nat) :
    Nat × Nat × NdbQueryOperationDefImpl :=
  let nodeId1 :=
    if op.getType = Type_.UniqueIndexAccess then (nodeId + 1) % UINT32_MOD else nodeId
  let op1 := { op with m_id := nodeId1 }
  (op1.m_id, (nodeId1 + 1) % UINT32_MOD, op1)

/-- The default body of the virtual member `checkPrunable(keyInfo, isPruned,
hashValue)`.  The result is the returned value and the values of the reference
arguments `isPruned` and `hashValue` after the call. -/
def checkPrunable (_op : NdbQueryOperationDefImpl) (_keyInfo : Uint32Buffer)
    (_isPruned : Bool) (hashValue : Nat) : Int × Bool × Nat :=
  (0, false, hashValue)

/-- The number of node ids an operation takes from the counter. -/
def idCount (op : NdbQueryOperationDefImpl) : Nat :=
  if op.getType = Type_.UniqueIndexAccess then 2 else 1

/-- The node ids an operation stands for after numbering: its `m_id`, preceded
by the index id `m_id-1` (a `Uint32` expression) if the operation has an
index. -/
def idsConsumed (op : NdbQueryOperationDefImpl) : List Nat :=
  if op.getType = Type_.UniqueIndexAccess then
    [(op.m_id + UINT32_MOD - 1) % UINT32_MOD, op.m_id]
  else [op.m_id]

/-- Numbering the operations of a list in build order with
`assignQueryOperationId` from one shared counter `nodeId`.  The result is the
final counter and the numbered operations. -/
def assignAll (nodeId : Nat) : List NdbQueryOperationDefImpl →
    Nat × List NdbQueryOperationDefImpl
  | [] => (nodeId, [])
  | op :: ops =>
    ((assignAll (op.assignQueryOperationId nodeId).2.1 ops).1,
      (op.assignQueryOperationId nodeId).2.2 ::
        (assignAll (op.assignQueryOperationId nodeId).2.1 ops).2)

/-- The number of node ids the operations of a list take from the counter. -/
def idCountAll (ops : List NdbQueryOperationDefImpl) : Nat :=
  (ops.map idCount).sum

/-- A unique-index access operation at build position 0. -/
def uniqueOp : NdbQueryOperationDefImpl := ctor Type_.UniqueIndexAccess false 0

/-- A primary-key access operation at build position 0. -/
def pkOp : NdbQueryOperationDefImpl := ctor Type_.PrimaryKeyAccess false 0

/-- An ordered index scan operation at build position 1. -/
def scanOp : NdbQueryOperationDefImpl := ctor Type_.OrderedIndexScan true 1

end NdbQueryOperationDefImpl

/-- The members of `class NdbQueryDefImpl` the scan test uses: the operations
`m_operations` points at, in order. -/
structure NdbQueryDefImpl where
  m_operations : List NdbQueryOperationDefImpl

namespace NdbQueryDefImpl

/-- The member `isScanQuery()`; `none` is the access `m_operations[0]` to an
empty vector. -/
def isScanQuery (d : NdbQueryDefImpl) : Option Bool :=
  match d.m_operations[0]? with
  | some op => some op.isScanOperation
  | none => none

end NdbQueryDefImpl

/-- Modelled from the spec: the type `NdbError` of the builder member `m_error`
is declared outside NdbQueryBuilderImpl.hpp; the builder tracks a sticky
first-error code, the member `code` read and written by `setErrorCode` and
`hasError`. -/
structure NdbError where
  code : Int

/-- The member of `class NdbQueryBuilderImpl` the error handling uses. -/
structure NdbQueryBuilderImpl where
  m_error : NdbError

namespace NdbQueryBuilderImpl

/-- The member `setErrorCode(aErrorCode)`. -/
def setErrorCode (b : NdbQueryBuilderImpl) (aErrorCode : Int) : NdbQueryBuilderImpl :=
  if b.m_error.code = 0 then { b with m_error := { b.m_error with code := aErrorCode } }
  else b

/-- The member `hasError()`. -/
def hasError (b : NdbQueryBuilderImpl) : Bool := b.m_error.code != 0

/-- A sequence of `setErrorCode` calls, in order. -/
def setErrorCodes (b : NdbQueryBuilderImpl) (codes : List Int) : NdbQueryBuilderImpl :=
  codes.foldl setErrorCode b

end NdbQueryBuilderImpl

/-- The enumeration `NdbQueryOperandImpl::Kind`. -/
inductive NdbQueryOperandImpl.Kind where
  | Linked
  | Param
  | Const
  deriving DecidableEq

/-- The data members of `class NdbQueryOperandImpl`: `m_column` is `NULL` or the
address of the bound column. -/
structure NdbQueryOperandImpl where
  m_column : Option Nat
  m_kind : NdbQueryOperandImpl.Kind

namespace NdbQueryOperandImpl

/-- The constructor `NdbQueryOperandImpl(kind)`: `m_column(0), m_kind(kind)`. -/
def ctor (kind : Kind) : NdbQueryOperandImpl := { m_column := none, m_kind := kind }

/-- The member `getColumn()`. -/
def getColumn (o : NdbQueryOperandImpl) : Option Nat := o.m_column

/-- The base body of the virtual member `bindOperand(column, operation)`;
`column` is the address `&column`.  The result is the returned value and the
operand after the call. -/
def bindOperand (o : NdbQueryOperandImpl) (column : Nat)
    (_operation : NdbQueryOperationDefImpl) : Int × NdbQueryOperandImpl :=
  if o.m_column ≠ none ∧ o.m_column ≠ some column then
    (QRY_OPERAND_ALREADY_BOUND, o)
  else
    (0, { o with m_column := some column })

end NdbQueryOperandImpl

/-- The class `NdbConstOperandImpl::ConvertedValue`: the bytes of the union
`val`, the length `len` and the optional storage `buffer`. -/
structure ConvertedValue where
  val : List Nat
  len : Nat
  buffer : Option (List Nat)

/-- The data members of `class NdbConstOperandImpl`: those of its base class and
`m_converted`. -/
structure NdbConstOperandImpl extends NdbQueryOperandImpl where
  m_converted : ConvertedValue

namespace NdbConstOperandImpl

/-- The body `UNDEFINED_CONVERSION`, `{ return QRY_OPERAND_HAS_WRONG_TYPE; }`.
The result is the returned value and the operand after the call. -/
def UNDEFINED_CONVERSION (o : NdbConstOperandImpl) : Int × NdbConstOperandImpl :=
  (QRY_OPERAND_HAS_WRONG_TYPE, o)

/-- The base body of `convertUint8()`. -/
def convertUint8 (o : NdbConstOperandImpl) : Int × NdbConstOperandImpl :=
  UNDEFINED_CONVERSION o

/-- The base body of `convertInt8()`. -/
def convertInt8 (o : NdbConstOperandImpl) : Int × NdbConstOperandImpl :=
  UNDEFINED_CONVERSION o

/-- The base body of `convertUint16()`. -/
def convertUint16 (o : NdbConstOperandImpl) : Int × NdbConstOperandImpl :=
  UNDEFINED_CONVERSION o

/-- The base body of `convertInt16()`. -/
def convertInt16 (o : NdbConstOperandImpl) : Int × NdbConstOperandImpl :=
  UNDEFINED_CONVERSION o

/-- The base body of `convertUint24()`. -/
def convertUint24 (o : NdbConstOperandImpl) : Int × NdbConstOperandImpl :=
  UNDEFINED_CONVERSION o

/-- The base body of `convertInt24()`. -/
def convertInt24 (o : NdbConstOperandImpl) : Int × NdbConstOperandImpl :=
  UNDEFINED_CONVERSION o

/-- The base body of `convertUint32()`. -/
def convertUint32 (o : NdbConstOperandImpl) : Int × NdbConstOperandImpl :=
  UNDEFINED_CONVERSION o

/-- The base body of `convertInt32()`. -/
def convertInt32 (o : NdbConstOperandImpl) : Int × NdbConstOperandImpl :=
  UNDEFINED_CONVERSION o

/-- The base body of `convertUint64()`. -/
def convertUint64 (o : NdbConstOperandImpl) : Int × NdbConstOperandImpl :=
  UNDEFINED_CONVERSION o

/-- The base body of `convertInt64()`. -/
def convertInt64 (o : NdbConstOperandImpl) : Int × NdbConstOperandImpl :=
  UNDEFINED_CONVERSION o

/-- The base body of `convertFloat()`. -/
def convertFloat (o : NdbConstOperandImpl) : Int × NdbConstOperandImpl :=
  UNDEFINED_CONVERSION o

/-- The base body of `convertDouble()`. -/
def convertDouble (o : NdbConstOperandImpl) : Int × NdbConstOperandImpl :=
  UNDEFINED_CONVERSION o

/-- The base body of `convertUDec()`. -/
def convertUDec (o : NdbConstOperandImpl) : Int × NdbConstOperandImpl :=
  UNDEFINED_CONVERSION o

/-- The base body of `convertDec()`. -/
def convertDec (o : NdbConstOperandImpl) : Int × NdbConstOperandImpl :=
  UNDEFINED_CONVERSION o

/-- The base body of `convertBit()`. -/
def convertBit (o : NdbConstOperandImpl) : Int × NdbConstOperandImpl :=
  UNDEFINED_CONVERSION o

/-- The base body of `convertChar()`. -/
def convertChar (o : NdbConstOperandImpl) : Int × NdbConstOperandImpl :=
  UNDEFINED_CONVERSION o

/-- The base body of `convertVChar()`. -/
def convertVChar (o : NdbConstOperandImpl) : Int × NdbConstOperandImpl :=
  UNDEFINED_CONVERSION o

/-- The base body of `convertLVChar()`. -/
def convertLVChar (o : NdbConstOperandImpl) : Int × NdbConstOperandImpl :=
  UNDEFINED_CONVERSION o

/-- The base body of `convertBin()`. -/
def convertBin (o : NdbConstOperandImpl) : Int × NdbConstOperandImpl :=
  UNDEFINED_CONVERSION o

/-- The base body of `convertVBin()`. -/
def convertVBin (o : NdbConstOperandImpl) : Int × NdbConstOperandImpl :=
  UNDEFINED_CONVERSION o

/-- The base body of `convertLVBin()`. -/
def convertLVBin (o : NdbConstOperandImpl) : Int × NdbConstOperandImpl :=
  UNDEFINED_CONVERSION o

/-- The base body of `convertDate()`. -/
def convertDate (o : NdbConstOperandImpl) : Int × NdbConstOperandImpl :=
  UNDEFINED_CONVERSION o

/-- The base body of `convertDatetime()`. -/
def convertDatetime (o : NdbConstOperandImpl) : Int × NdbConstOperandImpl :=
  UNDEFINED_CONVERSION o

/-- The base body of `convertTime()`. -/
def convertTime (o : NdbConstOperandImpl) : Int × NdbConstOperandImpl :=
  UNDEFINED_CONVERSION o

/-- The base body of `convertYear()`. -/
def convertYear (o : NdbConstOperandImpl) : Int × NdbConstOperandImpl :=
  UNDEFINED_CONVERSION o

/-- The base body of `convertTimestamp()`. -/
def convertTimestamp (o : NdbConstOperandImpl) : Int × NdbConstOperandImpl :=
  UNDEFINED_CONVERSION o

/-- The conversion routines declared in the base class, in declaration order. -/
def conversions : List (NdbConstOperandImpl → Int × NdbConstOperandImpl) :=
  [convertUint8, convertInt8, convertUint16, convertInt16, convertUint24, convertInt24,
   convertUint32, convertInt32, convertUint64, convertInt64, convertFloat, convertDouble,
   convertUDec, convertDec,
   convertBit, convertChar, convertVChar, convertLVChar, convertBin, convertVBin, convertLVBin,
   convertDate, convertDatetime, convertTime, convertYear, convertTimestamp]

/-- The member `getSizeInBytes()`. -/
def getSizeInBytes (o : NdbConstOperandImpl) : Nat := o.m_converted.len

end NdbConstOperandImpl

namespace Uint32Buffer

/-- The general path of `append(word)`: `alloc(1)` followed by storing the word
in the returned slot (the `else` branch of `append`). -/
def appendViaAlloc (b : Uint32Buffer) (src : Nat) (newBuf : Option (Nat → Nat)) :
    Uint32Buffer :=
  match b.alloc 1 newBuf with
  | (some dst, b1) => { b1 with m_array := storeWord b1.m_array dst src }
  | (none, b1) => b1

/-- A fresh buffer after a successful `alloc(4294967295)`: size 4294967295,
capacity 4294967294, not exhausted. -/
def fullSize : Uint32Buffer := ((ctor zeroWords).alloc 4294967295 (some zeroWords)).2

end Uint32Buffer

namespace Uint32Buffer

/-- A fresh buffer after 255 words were reserved and one word appended: size
256, capacity 256, not exhausted. -/
def fullLocal : Uint32Buffer := (((ctor zeroWords).alloc 255 none).2).append 7 none

end Uint32Buffer

namespace NdbQueryOperationDefImpl

/-- The number of `UniqueIndexAccess` operations in a list. -/
def uniqueCount (ops : List NdbQueryOperationDefImpl) : Nat :=
  ops.countP (fun op => decide (op.getType = Type_.UniqueIndexAccess))

/-- The operations of a list are in build order: the ordinal `m_ix` each was
constructed with is its position in the list. -/
def inBuildOrder (ops : List NdbQueryOperationDefImpl) : Prop :=
  ops.map (fun op => op.getQueryOperationIx) = List.range ops.length

instance (ops : List NdbQueryOperationDefImpl) : Decidable (inBuildOrder ops) := by
  unfold inBuildOrder; exact inferInstance

/-- A list of `n` unique-index accesses constructed with the ordinals
`ix, ix+1, ...`. -/
def uniqueBuild (ix n : Nat) : List NdbQueryOperationDefImpl :=
  (List.range' ix n).map (fun j => ctor Type_.UniqueIndexAccess false j)

/-- Four operations in build order: a primary-key access, a unique-index access,
an ordered index scan and another unique-index access. -/
def sampleQuery : List NdbQueryOperationDefImpl :=
  [ctor Type_.PrimaryKeyAccess false 0, ctor Type_.UniqueIndexAccess false 1,
   ctor Type_.OrderedIndexScan true 2, ctor Type_.UniqueIndexAccess false 3]

end NdbQueryOperationDefImpl

/-! ## Auxiliary lemmas on `alloc` -/

namespace Uint32Buffer

/-- When `reqSize` is below `m_avail` the call `alloc(count)` runs only its last
three lines. -/
theorem alloc_of_lt (b : Uint32Buffer) (count : Nat) (newBuf : Option (Nat → Nat))
    (h : b.reqSize count < b.m_avail) : b.alloc count newBuf = b.allocExtend count := by
  unfold alloc
  rw [if_neg (by omega)]

/-- On a memory-exhausted buffer whose `reqSize` reaches `m_avail` the call
`alloc(count)` returns `NULL` and changes nothing. -/
theorem alloc_of_exhausted (b : Uint32Buffer) (count : Nat) (newBuf : Option (Nat → Nat))
    (h : b.m_avail ≤ b.reqSize count) (hE : b.m_memoryExhausted = true) :
    b.alloc count newBuf = (none, b) := by
  unfold alloc
  rw [if_pos h, if_pos hE]

/-- When `alloc(count)` reaches `new` and `new` succeeds, the old words are
copied to the new storage, `m_avail` is set and the last three lines run. -/
theorem alloc_of_new_some (b : Uint32Buffer) (count : Nat) (fresh : Nat → Nat)
    (h : b.callsNew count) :
    b.alloc count (some fresh) =
      allocExtend
        { b with
          m_array := memcpyWords fresh 0 b.m_array 0 b.m_size
          m_avail := ((b.reqSize count * 2) % SIZE_T_MOD) % UINT32_MOD }
        count := by
  unfold alloc
  rw [if_pos h.1, h.2]
  simp

/-- When `alloc(count)` reaches `new` and `new` fails, the call returns `NULL`,
sets `m_size = m_avail` and sets the memory-exhausted flag. -/
theorem alloc_of_new_none (b : Uint32Buffer) (count : Nat) (h : b.callsNew count) :
    b.alloc count none = (none, { b with m_size := b.m_avail, m_memoryExhausted := true }) := by
  unfold alloc
  rw [if_pos h.1, h.2]
  simp

/-- The state left by a failed allocation: the fields are still `Uint32` values,
the memory-exhausted flag is set and `m_size = m_avail`. -/
theorem alloc_failure_state (b : Uint32Buffer) (count : Nat) (hR : b.inRange)
    (hG : b.callsNew count) :
    (b.alloc count none).1 = none ∧ (b.alloc count none).2.inRange ∧
    (b.alloc count none).2.isMemoryExhausted = true ∧
    (b.alloc count none).2.m_size = (b.alloc count none).2.m_avail := by
  rw [alloc_of_new_none b count hG]
  exact ⟨rfl, ⟨hR.1, hR.1⟩, rfl, rfl⟩

/-- Without wrap-around of the `size_t` sum, `reqSize` is `m_size + count`. -/
theorem reqSize_eq (b : Uint32Buffer) (count : Nat) (h : b.m_size + count < SIZE_T_MOD) :
    b.reqSize count = b.m_size + count := by
  unfold reqSize
  exact Nat.mod_eq_of_lt h

/-- The shape of the state after a successful `alloc(count)` whose new size fits
a `Uint32`: the returned pointer is the old end, the size advanced by `count`,
the words below the old size are the old ones. -/
theorem alloc_some_shape (b : Uint32Buffer) (count : Nat) (fresh : Nat → Nat)
    (hE : b.m_memoryExhausted = false) (hB : b.m_size + count < UINT32_MOD) :
    ∃ a, b.alloc count (some fresh) =
        (some b.m_size,
          { m_array := a, m_avail := (b.alloc count (some fresh)).2.m_avail,
            m_size := b.m_size + count, m_memoryExhausted := false }) ∧
      ∀ i, i < b.m_size → a i = b.m_array i := by
  simp only [UINT32_MOD] at hB
  have hm : ((b.m_size + count) % SIZE_T_MOD) % UINT32_MOD = b.m_size + count := by
    simp only [SIZE_T_MOD, UINT32_MOD]; omega
  by_cases hlt : b.reqSize count < b.m_avail
  · refine ⟨b.m_array, ?_, fun _ _ => rfl⟩
    rw [alloc_of_lt b count _ hlt]
    unfold allocExtend
    rw [hm, ← hE]
  · have hG : b.callsNew count := ⟨by omega, hE⟩
    refine ⟨memcpyWords fresh 0 b.m_array 0 b.m_size, ?_, ?_⟩
    · rw [alloc_of_new_some b count fresh hG]
      unfold allocExtend
      simp only [hm, hE]
    · intro i hi
      simp [memcpyWords, hi]

/-- The fields stay `Uint32` values across `alloc`. -/
theorem alloc_preserves_inRange (b : Uint32Buffer) (count : Nat)
    (newBuf : Option (Nat → Nat)) (hR : b.inRange) : (b.alloc count newBuf).2.inRange := by
  have hM : 0 < UINT32_MOD := by decide
  unfold alloc allocExtend
  split
  · split
    · exact hR
    · cases newBuf with
      | some fresh => exact ⟨Nat.mod_lt _ hM, Nat.mod_lt _ hM⟩
      | none => exact ⟨hR.1, hR.1⟩
  · exact ⟨hR.1, Nat.mod_lt _ hM⟩

/-- The fields stay `Uint32` values across `append(word)`. -/
theorem append_preserves_inRange (b : Uint32Buffer) (w : Nat) (newBuf : Option (Nat → Nat))
    (hR : b.inRange) : (b.append w newBuf).inRange := by
  have hM : 0 < UINT32_MOD := by decide
  unfold append
  split
  · exact ⟨hR.1, Nat.mod_lt _ hM⟩
  · have h := alloc_preserves_inRange b 1 newBuf hR
    generalize b.alloc 1 newBuf = r at h
    obtain ⟨p, b1⟩ := r
    cases p with
    | some dst => exact h
    | none => exact h

/-- The fields of a freshly constructed buffer are `Uint32` values. -/
theorem ctor_inRange (m_local : Nat → Nat) : (ctor m_local).inRange :=
  ⟨by simp [ctor, initSize, UINT32_MOD], by simp [ctor, UINT32_MOD]⟩

/-- The fields stay `Uint32` values across any run of `append(word)` calls. -/
theorem appendAll_inRange (ws : List Nat) :
    ∀ (fresh : Nat → Nat → Nat) (b : Uint32Buffer), b.inRange →
      (appendAll fresh b ws).inRange := by
  induction ws with
  | nil => intro _ b h; exact h
  | cons w ws ih =>
    intro fresh b h
    exact ih _ _ (append_preserves_inRange b w _ h)

/-- The size reported after any run of `append(word)` calls is a `Uint32`. -/
theorem appendAll_getSize_lt (ws : List Nat) (fresh : Nat → Nat → Nat) (b : Uint32Buffer)
    (h : b.inRange) : (appendAll fresh b ws).getSize < 4294967296 :=
  (appendAll_inRange ws fresh b h).2

/-- The shape of the state after `append(word)` with `new` succeeding and the
new size fitting a `Uint32`. -/
theorem append_some_shape (b : Uint32Buffer) (w : Nat) (fresh : Nat → Nat)
    (hA : b.m_avail < UINT32_MOD) (hE : b.m_memoryExhausted = false)
    (hB : b.m_size + 1 < UINT32_MOD) :
    ∃ a v, b.append w (some fresh) =
        { m_array := a, m_avail := v, m_size := b.m_size + 1, m_memoryExhausted := false } ∧
      v < UINT32_MOD ∧ a b.m_size = w ∧ ∀ i, i < b.m_size → a i = b.m_array i := by
  by_cases hlt : b.m_size < b.m_avail
  · refine ⟨storeWord b.m_array b.m_size w, b.m_avail, ?_, hA, ?_, ?_⟩
    · unfold append
      rw [if_pos hlt, Nat.mod_eq_of_lt hB, ← hE]
    · simp [storeWord]
    · intro i hi
      have : i ≠ b.m_size := by omega
      simp [storeWord, this]
  · obtain ⟨a, ha, hpre⟩ := alloc_some_shape b 1 fresh hE hB
    refine ⟨storeWord a b.m_size w, (b.alloc 1 (some fresh)).2.m_avail, ?_, ?_, ?_, ?_⟩
    · unfold append
      rw [if_neg hlt, ha]
    · have hG : b.callsNew 1 := by
        refine ⟨?_, hE⟩
        rw [reqSize_eq b 1 (by simp only [UINT32_MOD] at hB; simp only [SIZE_T_MOD]; omega)]
        omega
      rw [alloc_of_new_some b 1 fresh hG]
      unfold allocExtend
      exact Nat.mod_lt _ (by decide)
    · simp [storeWord]
    · intro i hi
      have : i ≠ b.m_size := by omega
      simp [storeWord, this, hpre i hi]

/-- The state after a run of `append(word)` calls, every `new` succeeding, as
long as the size fits a `Uint32`: the size grew by the number of words, the old
words are kept and the new words follow them in order. -/
theorem appendAll_inv (ws : List Nat) :
    ∀ (fresh : Nat → Nat → Nat) (b : Uint32Buffer),
      b.m_avail < UINT32_MOD → b.m_memoryExhausted = false →
      b.m_size + ws.length < UINT32_MOD →
      (appendAll fresh b ws).m_size = b.m_size + ws.length ∧
      (appendAll fresh b ws).m_memoryExhausted = false ∧
      (∀ i, i < b.m_size → (appendAll fresh b ws).m_array i = b.m_array i) ∧
      (∀ j, (hj : j < ws.length) → (appendAll fresh b ws).m_array (b.m_size + j) = ws[j]) := by
  induction ws with
  | nil =>
    intro fresh b _ hE _
    refine ⟨rfl, hE, fun _ _ => rfl, ?_⟩
    intro j hj
    simp at hj
  | cons w ws ih =>
    intro fresh b hA hE hB
    simp only [List.length_cons] at hB
    obtain ⟨a, v, hb1, hv, haw, hpre⟩ :=
      append_some_shape b w (fresh 0) hA hE (by omega)
    have hstep : appendAll fresh b (w :: ws) =
        appendAll (fun k => fresh (k + 1)) (b.append w (some (fresh 0))) ws := rfl
    rw [hstep, hb1]
    obtain ⟨i1, i2, i3, i4⟩ := ih (fun k => fresh (k + 1))
      { m_array := a, m_avail := v, m_size := b.m_size + 1, m_memoryExhausted := false }
      hv rfl (by simp only []; omega)
    simp only [] at i1 i3 i4
    refine ⟨?_, i2, ?_, ?_⟩
    · rw [i1, List.length_cons]; omega
    · intro i hi
      rw [i3 i (by omega)]
      exact hpre i hi
    · intro j hj
      cases j with
      | zero =>
        have h0 := i3 b.m_size (by omega)
        simp only [Nat.add_zero, List.getElem_cons_zero]
        rw [h0]
        exact haw
      | succ j =>
        have hj1 : j < ws.length := by simpa using hj
        have := i4 j hj1
        rw [show b.m_size + (j + 1) = b.m_size + 1 + j by omega, this]
        simp

/-- Mapping over `range (m + n)` an array that agrees with `a` below `m` and
with `s` shifted by `m` from there on. -/
theorem map_range_append (a a1 s : Nat → Nat) (m n : Nat)
    (h1 : ∀ i, i < m → a1 i = a i) (h2 : ∀ j, j < n → a1 (m + j) = s j) :
    (List.range (m + n)).map a1 = (List.range m).map a ++ (List.range n).map s := by
  rw [List.range_add, List.map_append, List.map_map]
  congr 1
  · apply List.map_congr_left
    intro x hx
    exact h1 x (List.mem_range.mp hx)
  · apply List.map_congr_left
    intro x hx
    exact h2 x (List.mem_range.mp hx)

/-- A byte of a word is below 256. -/
theorem wordByte_lt (w k : Nat) : wordByte w k < 256 := by
  unfold wordByte
  exact Nat.mod_lt _ (by decide)

/-- The four bytes of the word built from four bytes. -/
theorem wordByte_wordOfBytes (b0 b1 b2 b3 : Nat)
    (h0 : b0 < 256) (h1 : b1 < 256) (h2 : b2 < 256) (h3 : b3 < 256) :
    wordByte (wordOfBytes b0 b1 b2 b3) 0 = b0 ∧ wordByte (wordOfBytes b0 b1 b2 b3) 1 = b1 ∧
    wordByte (wordOfBytes b0 b1 b2 b3) 2 = b2 ∧ wordByte (wordOfBytes b0 b1 b2 b3) 3 = b3 := by
  unfold wordByte wordOfBytes
  norm_num
  refine ⟨?_, ?_, ?_, ?_⟩ <;> omega

/-- Byte `k` of the destination area after `memcpy` of `len` bytes, for a byte
lying in a word the copy touches. -/
theorem byteAt_memcpyBytes (a src : Nat → Nat) (dst len k : Nat)
    (hsrc : ∀ j, j < len → src j < 256) (hk : 4 * (k / 4) < len) :
    byteAt (memcpyBytes a dst src len) (4 * dst + k) =
      if k < len then src k else wordByte (a (dst + k / 4)) (k % 4) := by
  have hq : (4 * dst + k) / 4 = dst + k / 4 := by omega
  have hr : (4 * dst + k) % 4 = k % 4 := by omega
  unfold byteAt
  rw [hq, hr]
  unfold memcpyBytes
  have hsub : dst + k / 4 - dst = k / 4 := by omega
  simp only [hsub]
  rw [if_pos ⟨by omega, hk⟩]
  have hb : ∀ r, (if 4 * (k / 4) + r < len then src (4 * (k / 4) + r)
      else wordByte (a (dst + k / 4)) r) < 256 := by
    intro r
    split
    · exact hsrc _ (by assumption)
    · exact wordByte_lt _ _
  obtain ⟨e0, e1, e2, e3⟩ := wordByte_wordOfBytes _ _ _ _ (hb 0) (hb 1) (hb 2) (hb 3)
  have hcases : k % 4 = 0 ∨ k % 4 = 1 ∨ k % 4 = 2 ∨ k % 4 = 3 := by omega
  rcases hcases with h | h | h | h
  · rw [h, e0]
    have : 4 * (k / 4) + 0 = k := by omega
    rw [this]
  · rw [h, e1]
    have : 4 * (k / 4) + 1 = k := by omega
    rw [this]
  · rw [h, e2]
    have : 4 * (k / 4) + 2 = k := by omega
    rw [this]
  · rw [h, e3]
    have : 4 * (k / 4) + 3 = k := by omega
    rw [this]

end Uint32Buffer

/-! ## The buffer: round trip, exhaustion, address resolution -/

namespace Uint32Buffer

/-- C1 (as amended): for every list of fewer than 2^32 words, appending them one
by one with `append(word)` to a freshly constructed buffer, every storage
allocation succeeding, gives `getSize() = N`, and `get(i)` and the word at
`addr(i)` are the `i`-th appended word for `i < N` (and both fail for
`i ≥ N`). -/
theorem append_round_trip (m_local : Nat → Nat) (fresh : Nat → Nat → Nat) (ws : List Nat)
    (i : Nat) (hN : ws.length < UINT32_MOD) :
    (appendAll fresh (ctor m_local) ws).getSize = ws.length ∧
    (appendAll fresh (ctor m_local) ws).get i = ws[i]? ∧
    ((appendAll fresh (ctor m_local) ws).addr i).map (appendAll fresh (ctor m_local) ws).deref
      = ws[i]? := by
  have hz : (ctor m_local).m_size = 0 := rfl
  obtain ⟨h1, h2, _, h4⟩ := appendAll_inv ws fresh (ctor m_local)
    (by simp [ctor, initSize, UINT32_MOD]) rfl (by rw [hz, Nat.zero_add]; exact hN)
  rw [hz, Nat.zero_add] at h1
  simp only [hz, Nat.zero_add] at h4
  refine ⟨h1, ?_, ?_⟩
  · unfold get
    rw [h1]
    by_cases hi : i < ws.length
    · rw [if_pos hi, h4 i hi, List.getElem?_eq_getElem hi]
    · rw [if_neg hi, List.getElem?_eq_none (by omega)]
  · unfold addr deref
    rw [h1, h2]
    by_cases hi : i < ws.length
    · simp [hi, h4 i hi]
    · simp [hi]
      omega

/-- C1, an instance: three words appended to a fresh buffer and read back at
offset 1. -/
theorem append_round_trip_witness :
    ([11, 22, 33] : List Nat).length < UINT32_MOD ∧
    ((appendAll (fun _ => zeroWords) (ctor zeroWords) [11, 22, 33]).getSize
        = ([11, 22, 33] : List Nat).length ∧
      (appendAll (fun _ => zeroWords) (ctor zeroWords) [11, 22, 33]).get 1
        = ([11, 22, 33] : List Nat)[1]? ∧
      ((appendAll (fun _ => zeroWords) (ctor zeroWords) [11, 22, 33]).addr 1).map
          (appendAll (fun _ => zeroWords) (ctor zeroWords) [11, 22, 33]).deref
        = ([11, 22, 33] : List Nat)[1]?) :=
  ⟨by decide, append_round_trip zeroWords (fun _ => zeroWords) [11, 22, 33] 1 (by decide)⟩

/-- C1 as stated fails for a list of 2^32 words: `m_size` is a `Uint32`, so
`getSize()` after the appends is below 2^32 and differs from the number of
words appended. -/
theorem append_round_trip_overflow :
    ¬ ((appendAll (fun _ => zeroWords) (ctor zeroWords) (List.replicate 4294967296 0)).getSize
      = (List.replicate 4294967296 0).length) := by
  rw [List.length_replicate]
  exact Nat.ne_of_lt (appendAll_getSize_lt _ _ _ (ctor_inRange _))

/-- Exhaustion is sticky as long as the `size_t` sum does not wrap: in a state
left by a failed allocation (flag set and `m_size = m_avail`), `alloc(count)`
returns `NULL` for every `count` whose sum with the size stays below 2^64 (0
included), and `alloc`, `append(word)`, `append(buffer)` and
`append(bytes, len)` leave size, capacity, words and flag unchanged. -/
theorem exhausted_sticky (b src : Uint32Buffer) (count w len : Nat) (bytes : Nat → Nat)
    (newBuf : Option (Nat → Nat))
    (hR : b.inRange) (hE : b.isMemoryExhausted = true) (hS : b.m_size = b.m_avail)
    (hC : b.m_size + count < SIZE_T_MOD)
    (hsrcR : src.inRange) (hsrcE : src.isMemoryExhausted = false) :
    b.alloc count newBuf = (none, b) ∧
    b.alloc 0 newBuf = (none, b) ∧
    b.append w newBuf = b ∧
    b.append_buffer src newBuf = some b ∧
    b.append_bytes bytes len newBuf = b := by
  unfold isMemoryExhausted at hE
  have hR1 := hR.1
  have hR2 := hR.2
  have hsR := hsrcR.2
  simp only [UINT32_MOD] at hR1 hR2 hsR
  have key : ∀ c, b.m_size + c < SIZE_T_MOD → b.alloc c newBuf = (none, b) := by
    intro c hc
    apply alloc_of_exhausted _ _ _ _ hE
    rw [reqSize_eq b c hc]
    omega
  refine ⟨key count hC, key 0 ?_, ?_, ?_, ?_⟩
  · simp only [SIZE_T_MOD]; omega
  · unfold append
    rw [if_neg (by omega), key 1 (by simp only [SIZE_T_MOD]; omega)]
  · unfold append_buffer
    rw [hsrcE]
    simp only [Bool.false_eq_true, if_false]
    split
    · rw [key src.getSize (by unfold getSize; simp only [SIZE_T_MOD]; omega)]
    · rfl
  · unfold append_bytes
    split
    · rw [key (wordCount len) (by unfold wordCount; simp only [SIZE_T_MOD, sizeofUint32]; omega)]
    · rfl

/-- Sticky exhaustion, an instance: the buffer left by a failed `alloc(300)`, a
later `alloc(1000)` with `new` willing to succeed, and the three appends. -/
theorem exhausted_sticky_witness :
    (exhaustedBuffer.inRange ∧ exhaustedBuffer.isMemoryExhausted = true ∧
      exhaustedBuffer.m_size = exhaustedBuffer.m_avail ∧
      exhaustedBuffer.m_size + 1000 < SIZE_T_MOD ∧
      threeWords.inRange ∧ threeWords.isMemoryExhausted = false) ∧
    (exhaustedBuffer.alloc 1000 (some zeroWords) = (none, exhaustedBuffer) ∧
      exhaustedBuffer.alloc 0 (some zeroWords) = (none, exhaustedBuffer) ∧
      exhaustedBuffer.append 7 (some zeroWords) = exhaustedBuffer ∧
      exhaustedBuffer.append_buffer threeWords (some zeroWords) = some exhaustedBuffer ∧
      exhaustedBuffer.append_bytes (fun _ => 7) 5 (some zeroWords) = exhaustedBuffer) :=
  ⟨⟨by decide, by decide, by decide, by decide, by decide, by decide⟩,
    exhausted_sticky exhaustedBuffer threeWords 1000 7 5 (fun _ => 7) (some zeroWords)
      (by decide) (by decide) (by decide) (by decide) (by decide) (by decide)⟩

/-- C2, the code at a failing input: exhaustion is meant to be sticky (after a
failed allocation every `alloc` returns `NULL` and every `alloc` or `append`
leaves the buffer unchanged), but on the buffer left by a failed `alloc(300)`
(size 256, capacity 256, flag set) the call `alloc(2^64 - 1)` wraps the sum
`m_size + count` to 255, passes the capacity test without reaching the exhausted
test, returns the address of word 256 rather than `NULL` and sets the size to
255; a following `append(7)` then takes its fast path and stores the word at
offset 255 with the flag still set. -/
theorem exhausted_alloc_wraps :
    exhaustedBuffer.isMemoryExhausted = true ∧
    exhaustedBuffer.getSize = 256 ∧
    exhaustedBuffer.m_avail = 256 ∧
    (18446744073709551615 : Nat) < SIZE_T_MOD ∧
    (exhaustedBuffer.alloc 18446744073709551615 none).1 = some 256 ∧
    (exhaustedBuffer.alloc 18446744073709551615 none).2.getSize = 255 ∧
    (exhaustedBuffer.alloc 18446744073709551615 none).2.isMemoryExhausted = true ∧
    ((exhaustedBuffer.alloc 18446744073709551615 none).2.append 7 none).getSize = 256 ∧
    ((exhaustedBuffer.alloc 18446744073709551615 none).2.append 7 none).deref 255 = 7 ∧
    exhaustedBuffer.deref 255 = 0 := by
  decide

/-- C3: `addr(idx)` returns an address exactly when the buffer is not memory
exhausted and `idx < m_size`; the address is then that of word `idx`, whose
content is `get(idx)`; otherwise the result is `NULL`.  Both overloads. -/
theorem addr_iff (b : Uint32Buffer) (idx : Nat) :
    ((b.addr idx ≠ none ↔ (b.isMemoryExhausted = false ∧ idx < b.getSize)) ∧
      (b.isMemoryExhausted = false ∧ idx < b.getSize →
        ∃ p, b.addr idx = some p ∧ some (b.deref p) = b.get idx) ∧
      (¬ (b.isMemoryExhausted = false ∧ idx < b.getSize) → b.addr idx = none)) ∧
    ((b.addr_const idx ≠ none ↔ (b.isMemoryExhausted = false ∧ idx < b.getSize)) ∧
      (b.isMemoryExhausted = false ∧ idx < b.getSize →
        ∃ p, b.addr_const idx = some p ∧ some (b.deref p) = b.get idx) ∧
      (¬ (b.isMemoryExhausted = false ∧ idx < b.getSize) → b.addr_const idx = none)) := by
  unfold addr addr_const isMemoryExhausted getSize deref get
  cases hE : b.m_memoryExhausted <;> by_cases hI : idx < b.m_size <;> simp [hI]

end Uint32Buffer

/-! ## The buffer: byte append, capacity, growth, frame properties -/

namespace Uint32Buffer

/-- C4 (as amended): for a non-exhausted buffer and `len > 0` source bytes, when
allocation succeeds and the new size fits the 32-bit size field,
`append(src, len)` increases the size by `ceil(len/4) = (len+3)/4` words and the
`4*ceil(len/4)` bytes of the added words are the `len` bytes of `src` followed
by zero bytes; for `len = 0` the buffer is unchanged. -/
theorem append_bytes_padded (b : Uint32Buffer) (src fresh : Nat → Nat) (len k : Nat)
    (hE : b.isMemoryExhausted = false) (hlen : 0 < len)
    (hB : b.getSize + (len + 3) / 4 < UINT32_MOD)
    (hsrc : ∀ j, j < len → src j < 256) :
    (b.append_bytes src len (some fresh)).getSize = b.getSize + (len + 3) / 4 ∧
    (k < 4 * ((len + 3) / 4) →
      byteAt (b.append_bytes src len (some fresh)).m_array (4 * b.getSize + k) =
        if k < len then src k else 0) ∧
    (∀ newBuf, b.append_bytes src 0 newBuf = b) := by
  unfold isMemoryExhausted at hE
  unfold getSize at *
  have hB1 := hB
  simp only [UINT32_MOD] at hB1
  have hwc : wordCount len = (len + 3) / 4 := by
    unfold wordCount
    simp only [SIZE_T_MOD, sizeofUint32]
    omega
  obtain ⟨a, ha, _⟩ := alloc_some_shape b (wordCount len) fresh hE (by rw [hwc]; exact hB)
  have hres : b.append_bytes src len (some fresh) =
      { m_array := memcpyBytes (storeWord a (b.m_size + wordCount len - 1) 0) b.m_size src len,
        m_avail := (b.alloc (wordCount len) (some fresh)).2.m_avail,
        m_size := b.m_size + wordCount len, m_memoryExhausted := false } := by
    unfold append_bytes
    rw [if_pos hlen, ha]
  refine ⟨?_, ?_, ?_⟩
  · rw [hres, hwc]
  · intro hk
    rw [hres]
    simp only []
    rw [byteAt_memcpyBytes _ _ _ _ _ hsrc (by omega)]
    split
    · rfl
    · have hidx : b.m_size + k / 4 = b.m_size + wordCount len - 1 := by rw [hwc]; omega
      rw [hidx]
      simp [storeWord, wordByte]
  · intro newBuf
    unfold append_bytes
    simp

/-- C4, an instance: five bytes of value 7 appended to a buffer holding three
words; byte 6 of the two added words is a padding byte. -/
theorem append_bytes_padded_witness :
    (threeWords.isMemoryExhausted = false ∧ 0 < 5 ∧
      threeWords.getSize + (5 + 3) / 4 < UINT32_MOD ∧
      (∀ j, j < 5 → (fun _ => 7 : Nat → Nat) j < 256)) ∧
    ((threeWords.append_bytes (fun _ => 7) 5 (some zeroWords)).getSize
        = threeWords.getSize + (5 + 3) / 4 ∧
      (6 < 4 * ((5 + 3) / 4) →
        byteAt (threeWords.append_bytes (fun _ => 7) 5 (some zeroWords)).m_array
            (4 * threeWords.getSize + 6) =
          if 6 < 5 then (fun _ => 7 : Nat → Nat) 6 else 0) ∧
      (∀ newBuf, threeWords.append_bytes (fun _ => 7) 0 newBuf = threeWords)) :=
  ⟨⟨by decide, by decide, by decide, by decide⟩,
    append_bytes_padded threeWords (fun _ => 7) zeroWords 5 6
      (by decide) (by decide) (by decide) (by decide)⟩

/-- C4 as stated fails when the size field wraps: on a non-exhausted buffer of
4294967293 words (capacity 4294967294), appending 12 bytes (3 words) with
allocation succeeding leaves `getSize() = 0`, not 4294967296. -/
theorem append_bytes_size_wraps :
    nearFull.isMemoryExhausted = false ∧
    nearFull.getSize = 4294967293 ∧
    nearFull.m_avail = 4294967294 ∧
    (nearFull.alloc (wordCount 12) (some zeroWords)).1 ≠ none ∧
    (nearFull.append_bytes (fun _ => 7) 12 (some zeroWords)).getSize = 0 ∧
    (nearFull.append_bytes (fun _ => 7) 12 (some zeroWords)).getSize
      ≠ nearFull.getSize + (12 + 3) / 4 := by
  decide

/-- C5, the code at a failing input: after a successful `alloc(2147483648)` on a
freshly constructed buffer the stored size is 2147483648 and the stored capacity
is 0 (`reqSize*2 = 2^32` truncated to 32 bits), so `m_size ≤ m_avail` does not
hold. -/
theorem size_exceeds_avail :
    ((ctor zeroWords).alloc 2147483648 (some zeroWords)).1 = some 0 ∧
    ((ctor zeroWords).alloc 2147483648 (some zeroWords)).2.m_size = 2147483648 ∧
    ((ctor zeroWords).alloc 2147483648 (some zeroWords)).2.m_avail = 0 ∧
    ¬ (((ctor zeroWords).alloc 2147483648 (some zeroWords)).2.m_size
        ≤ ((ctor zeroWords).alloc 2147483648 (some zeroWords)).2.m_avail) := by
  decide

/-- C6 (as amended): for every state and count with `size + count` strictly below
the capacity, `alloc(count)` does not reach `new` (so the store is replaced only
when `size + count ≥ capacity`), the capacity and the words are unchanged, and
`alloc` returns the current end with the size advanced by `count`. -/
theorem alloc_no_growth (b : Uint32Buffer) (count : Nat) (newBuf : Option (Nat → Nat))
    (hR : b.inRange) (h : b.m_size + count < b.m_avail) :
    ¬ b.callsNew count ∧
    b.alloc count newBuf = (some b.m_size, { b with m_size := b.m_size + count }) := by
  have hR1 := hR.1
  simp only [UINT32_MOD] at hR1
  have hq : b.reqSize count = b.m_size + count :=
    reqSize_eq b count (by simp only [SIZE_T_MOD]; omega)
  constructor
  · unfold callsNew
    rw [hq]
    omega
  · rw [alloc_of_lt b count newBuf (by rw [hq]; exact h)]
    unfold allocExtend
    have : ((b.m_size + count) % SIZE_T_MOD) % UINT32_MOD = b.m_size + count := by
      simp only [SIZE_T_MOD, UINT32_MOD]; omega
    rw [this]

/-- C6, an instance: `alloc(255)` on a freshly constructed buffer, with `new`
unable to deliver. -/
theorem alloc_no_growth_witness :
    ((ctor zeroWords).inRange ∧ (ctor zeroWords).m_size + 255 < (ctor zeroWords).m_avail) ∧
    (¬ (ctor zeroWords).callsNew 255 ∧
      (ctor zeroWords).alloc 255 none =
        (some (ctor zeroWords).m_size,
          { ctor zeroWords with m_size := (ctor zeroWords).m_size + 255 })) :=
  ⟨⟨by decide, by decide⟩, alloc_no_growth (ctor zeroWords) 255 none (by decide) (by decide)⟩

/-- C6 as stated fails when `size + count` equals the capacity: `alloc(256)` on a
freshly constructed buffer (size 0, capacity 256) reaches `new`; with `new`
succeeding the capacity becomes 512, with `new` failing the call returns
`NULL`. -/
theorem alloc_grows_at_capacity :
    (ctor zeroWords).isMemoryExhausted = false ∧
    (ctor zeroWords).m_size + 256 ≤ (ctor zeroWords).m_avail ∧
    (ctor zeroWords).callsNew 256 ∧
    ((ctor zeroWords).alloc 256 (some zeroWords)).2.m_avail = 512 ∧
    ((ctor zeroWords).alloc 256 (some zeroWords)).2.m_avail ≠ (ctor zeroWords).m_avail ∧
    ((ctor zeroWords).alloc 256 none).1 = none := by
  decide

/-- C7 (as amended): when `alloc(count)` on a non-exhausted buffer reaches `new`,
`new` succeeds and `2*(size_before + count)` fits the 32-bit capacity field, the
capacity afterwards is at least `2*(size_before + count)` and the size afterwards
is `size_before + count`. -/
theorem alloc_growth_amount (b : Uint32Buffer) (count : Nat) (fresh : Nat → Nat)
    (hG : b.callsNew count) (hB : 2 * (b.m_size + count) < UINT32_MOD) :
    2 * (b.m_size + count) ≤ (b.alloc count (some fresh)).2.m_avail ∧
    (b.alloc count (some fresh)).2.m_size = b.m_size + count := by
  simp only [UINT32_MOD] at hB
  have hq : b.reqSize count = b.m_size + count :=
    reqSize_eq b count (by simp only [SIZE_T_MOD]; omega)
  rw [alloc_of_new_some b count fresh hG, hq]
  unfold allocExtend
  simp only [SIZE_T_MOD, UINT32_MOD]
  constructor <;> omega

/-- C7, an instance: `alloc(300)` on a buffer holding three words. -/
theorem alloc_growth_amount_witness :
    (threeWords.callsNew 300 ∧ 2 * (threeWords.m_size + 300) < UINT32_MOD) ∧
    (2 * (threeWords.m_size + 300) ≤ (threeWords.alloc 300 (some zeroWords)).2.m_avail ∧
      (threeWords.alloc 300 (some zeroWords)).2.m_size = threeWords.m_size + 300) :=
  ⟨⟨by decide, by decide⟩, alloc_growth_amount threeWords 300 zeroWords (by decide) (by decide)⟩

/-- C7 as stated fails when `2*(size + count)` does not fit 32 bits:
`alloc(2147483648)` on a freshly constructed buffer reaches `new`, and with `new`
succeeding the stored capacity is 0, below `2*(0 + 2147483648)`. -/
theorem alloc_capacity_truncated :
    (ctor zeroWords).callsNew 2147483648 ∧
    ((ctor zeroWords).alloc 2147483648 (some zeroWords)).1 ≠ none ∧
    ¬ (2 * ((ctor zeroWords).m_size + 2147483648)
        ≤ ((ctor zeroWords).alloc 2147483648 (some zeroWords)).2.m_avail) := by
  decide

/-- C8 (as amended): if `alloc(count)` succeeds and `size_before + count` fits the
32-bit size field, then `get(i)` afterwards equals `get(i)` before for every
`i < size_before`, the returned block starts at offset `size_before`, and the
size afterwards is `size_before + count` (the block is the offsets
`size_before .. size_before+count-1`). -/
theorem alloc_preserves (b b1 : Uint32Buffer) (count p i : Nat) (newBuf : Option (Nat → Nat))
    (hB : b.getSize + count < UINT32_MOD)
    (hA : b.alloc count newBuf = (some p, b1)) :
    (i < b.getSize → b1.get i = b.get i) ∧ p = b.getSize ∧
      b1.getSize = b.getSize + count := by
  unfold getSize at *
  simp only [UINT32_MOD] at hB
  have hm : ((b.m_size + count) % SIZE_T_MOD) % UINT32_MOD = b.m_size + count := by
    simp only [SIZE_T_MOD, UINT32_MOD]; omega
  unfold alloc at hA
  split at hA
  · split at hA
    · simp at hA
    · split at hA
      · unfold allocExtend at hA
        simp only [Prod.mk.injEq, Option.some.injEq] at hA
        obtain ⟨hp, hb⟩ := hA
        subst hb
        simp only [hm]
        refine ⟨?_, hp.symm, trivial⟩
        intro hi
        unfold get
        simp only [memcpyWords]
        have h1 : i < b.m_size + count := by omega
        simp [h1, hi]
      · simp at hA
  · unfold allocExtend at hA
    simp only [Prod.mk.injEq, Option.some.injEq] at hA
    obtain ⟨hp, hb⟩ := hA
    subst hb
    simp only [hm]
    refine ⟨?_, hp.symm, trivial⟩
    intro hi
    unfold get
    have h1 : i < b.m_size + count := by omega
    simp [h1, hi]

/-- C8, an instance: a relocating `alloc(300)` on a buffer holding three words,
read back at offset 1. -/
theorem alloc_preserves_witness :
    (threeWords.getSize + 300 < UINT32_MOD ∧
      threeWords.alloc 300 (some zeroWords)
        = (some 3, (threeWords.alloc 300 (some zeroWords)).2)) ∧
    ((1 < threeWords.getSize →
        (threeWords.alloc 300 (some zeroWords)).2.get 1 = threeWords.get 1) ∧
      3 = threeWords.getSize ∧
      (threeWords.alloc 300 (some zeroWords)).2.getSize = threeWords.getSize + 300) :=
  ⟨⟨by decide, Prod.ext (by decide) rfl⟩,
    alloc_preserves threeWords (threeWords.alloc 300 (some zeroWords)).2 300 3 1
      (some zeroWords) (by decide) (Prod.ext (by decide) rfl)⟩

/-- C8 as stated fails when the size field wraps: on a non-exhausted buffer of
4294967293 words a successful `alloc(3)` leaves `m_size = 0`, so `get(5)`, which
returned a word before, fails its `assert(idx < m_size)` afterwards and `addr(5)`
is `NULL`. -/
theorem alloc_size_wraps :
    nearFull.isMemoryExhausted = false ∧
    (nearFull.alloc 3 (some zeroWords)).1 = some 4294967293 ∧
    5 < nearFull.getSize ∧
    nearFull.get 5 = some 0 ∧
    (nearFull.alloc 3 (some zeroWords)).2.get 5 = none ∧
    (nearFull.alloc 3 (some zeroWords)).2.addr 5 = none ∧
    (nearFull.alloc 3 (some zeroWords)).2.getSize = 0 := by
  decide

/-- C9: for every buffer, every `idx < size` and every value, `put(idx, value)`
makes `get(idx) = value`, leaves `get(j)` unchanged for every `j ≠ idx` with
`j < size`, and leaves size, capacity and the exhausted flag unchanged. -/
theorem put_get (b : Uint32Buffer) (idx value j : Nat) (h : idx < b.getSize) :
    ∃ b1, b.put idx value = some b1 ∧ b1.get idx = some value ∧
      (j ≠ idx → j < b.getSize → b1.get j = b.get j) ∧
      b1.getSize = b.getSize ∧ b1.m_avail = b.m_avail ∧
      b1.isMemoryExhausted = b.isMemoryExhausted := by
  unfold getSize at h
  refine ⟨{ b with m_array := storeWord b.m_array idx value }, ?_, ?_, ?_, rfl, rfl, rfl⟩
  · unfold put; rw [if_pos h]
  · unfold get; simp [h, storeWord]
  · intro hj hlt
    unfold getSize at hlt
    unfold get; simp [hlt, storeWord, hj]

/-- C9, an instance: `put(1, 99)` on a buffer holding three words, observed at
offset 2. -/
theorem put_get_witness :
    1 < threeWords.getSize ∧
    ∃ b1, threeWords.put 1 99 = some b1 ∧ b1.get 1 = some 99 ∧
      (2 ≠ 1 → 2 < threeWords.getSize → b1.get 2 = threeWords.get 2) ∧
      b1.getSize = threeWords.getSize ∧ b1.m_avail = threeWords.m_avail ∧
      b1.isMemoryExhausted = threeWords.isMemoryExhausted :=
  ⟨by decide, put_get threeWords 1 99 2 (by decide)⟩

/-- C10 (as amended): for a non-exhausted destination and a non-exhausted,
distinct source, when allocation succeeds and the sum of the two sizes fits the
32-bit size field, the destination's words afterwards are its previous words
followed by the source's words and its size grew by the source's size; appending
an empty source leaves the destination unchanged. -/
theorem append_buffer_concat (b src : Uint32Buffer) (fresh : Nat → Nat)
    (hE : b.isMemoryExhausted = false) (hS : src.isMemoryExhausted = false)
    (hB : b.getSize + src.getSize < UINT32_MOD) :
    (∃ b1, b.append_buffer src (some fresh) = some b1 ∧
      b1.words = b.words ++ src.words ∧ b1.getSize = b.getSize + src.getSize) ∧
    (src.getSize = 0 → ∀ newBuf, b.append_buffer src newBuf = some b) := by
  unfold isMemoryExhausted at hE
  constructor
  · by_cases h0 : src.getSize > 0
    · obtain ⟨a, ha, hpre⟩ := alloc_some_shape b src.getSize fresh hE hB
      have hsz : src.m_size > 0 := h0
      refine ⟨{ m_array := memcpyWords a b.m_size src.m_array 0 src.getSize,
                m_avail := (b.alloc src.getSize (some fresh)).2.m_avail,
                m_size := b.m_size + src.getSize, m_memoryExhausted := false }, ?_, ?_, ?_⟩
      · unfold append_buffer
        rw [hS]
        simp only [Bool.false_eq_true, if_false, if_pos h0]
        rw [ha]
        have hadr : src.addr_const 0 = some 0 := by
          unfold addr_const
          unfold isMemoryExhausted at hS
          simp [hS, hsz]
        simp only [hadr]
      · unfold words
        simp only [getSize]
        apply map_range_append
        · intro i hi
          simp only [memcpyWords]
          rw [if_neg (by omega)]
          exact hpre i hi
        · intro j hj
          simp only [memcpyWords, getSize]
          rw [if_pos (by omega)]
          congr 1
          omega
      · rfl
    · refine ⟨b, ?_, ?_, ?_⟩
      · unfold append_buffer
        rw [hS]
        simp only [Bool.false_eq_true, if_false, if_neg h0]
      · have : src.m_size = 0 := by unfold getSize at h0; omega
        unfold words
        simp [this]
      · unfold getSize at *
        omega
  · intro h0 newBuf
    unfold append_buffer
    rw [hS]
    simp [h0]

/-- C10, an instance: a buffer holding the two words 44, 55 appended to a
buffer holding three words. -/
theorem append_buffer_concat_witness :
    (threeWords.isMemoryExhausted = false ∧
      (appendAll (fun _ => zeroWords) (ctor zeroWords) [44, 55]).isMemoryExhausted = false ∧
      threeWords.getSize + (appendAll (fun _ => zeroWords) (ctor zeroWords) [44, 55]).getSize
        < UINT32_MOD) ∧
    ((∃ b1, threeWords.append_buffer (appendAll (fun _ => zeroWords) (ctor zeroWords) [44, 55])
          (some zeroWords) = some b1 ∧
        b1.words = threeWords.words
          ++ (appendAll (fun _ => zeroWords) (ctor zeroWords) [44, 55]).words ∧
        b1.getSize = threeWords.getSize
          + (appendAll (fun _ => zeroWords) (ctor zeroWords) [44, 55]).getSize) ∧
      ((appendAll (fun _ => zeroWords) (ctor zeroWords) [44, 55]).getSize = 0 →
        ∀ newBuf, threeWords.append_buffer
          (appendAll (fun _ => zeroWords) (ctor zeroWords) [44, 55]) newBuf
            = some threeWords)) :=
  ⟨⟨by decide, by decide, by decide⟩,
    append_buffer_concat threeWords (appendAll (fun _ => zeroWords) (ctor zeroWords) [44, 55])
      zeroWords (by decide) (by decide) (by decide)⟩

/-- C10 as stated fails when the size field wraps: appending a three-word source
to a non-exhausted destination of 4294967293 words, allocation succeeding, leaves
the destination with `getSize() = 0`, not 4294967296. -/
theorem append_buffer_size_wraps :
    nearFull.isMemoryExhausted = false ∧
    threeWords.isMemoryExhausted = false ∧
    threeWords.getSize = 3 ∧
    (nearFull.alloc threeWords.getSize (some zeroWords)).1 ≠ none ∧
    (nearFull.append_buffer threeWords (some zeroWords)).map getSize = some 0 ∧
    (nearFull.append_buffer threeWords (some zeroWords)).map getSize
      ≠ some (nearFull.getSize + threeWords.getSize) := by
  decide

end Uint32Buffer
/-! ## Operands and the builder error code -/

namespace NdbQueryOperandImpl

/-- C11: the base `bindOperand(c, op)` returns `QRY_OPERAND_ALREADY_BOUND` (4810)
exactly when the operand is already bound to a column different from `c`, and
then leaves the bound column as it was; in every other case it returns 0 and the
operand is bound to `c`. -/
theorem bindOperand_spec (o : NdbQueryOperandImpl) (c : Nat) (op : NdbQueryOperationDefImpl) :
    QRY_OPERAND_ALREADY_BOUND = 4810 ∧
    ((o.bindOperand c op).1 = QRY_OPERAND_ALREADY_BOUND ↔
      ∃ c0, o.getColumn = some c0 ∧ c0 ≠ c) ∧
    ((o.bindOperand c op).1 = QRY_OPERAND_ALREADY_BOUND →
      (o.bindOperand c op).2 = o) ∧
    ((o.bindOperand c op).1 ≠ QRY_OPERAND_ALREADY_BOUND →
      (o.bindOperand c op).1 = 0 ∧ (o.bindOperand c op).2.getColumn = some c ∧
      (o.bindOperand c op).2.m_kind = o.m_kind) := by
  unfold bindOperand getColumn QRY_OPERAND_ALREADY_BOUND
  cases hcol : o.m_column with
  | none => simp
  | some c0 =>
    by_cases hc : c0 = c
    · subst hc
      simp
    · simp [hc]

/-- C12: for every unbound operand and column `c`, binding to `c` and then to
`c` again returns 0 both times, and the operand after the second call equals
the operand after the first. -/
theorem bindOperand_idempotent (o : NdbQueryOperandImpl) (c : Nat)
    (op1 op2 : NdbQueryOperationDefImpl) (hU : o.getColumn = none) :
    (o.bindOperand c op1).1 = 0 ∧
    ((o.bindOperand c op1).2.bindOperand c op2).1 = 0 ∧
    ((o.bindOperand c op1).2.bindOperand c op2).2 = (o.bindOperand c op1).2 := by
  unfold getColumn at hU
  unfold bindOperand
  simp [hU]

/-- C12, an instance: a freshly constructed `Param` operand bound twice to the
column at address 1000. -/
theorem bindOperand_idempotent_witness :
    (ctor Kind.Param).getColumn = none ∧
    (((ctor Kind.Param).bindOperand 1000 NdbQueryOperationDefImpl.pkOp).1 = 0 ∧
      (((ctor Kind.Param).bindOperand 1000 NdbQueryOperationDefImpl.pkOp).2.bindOperand 1000
          NdbQueryOperationDefImpl.scanOp).1 = 0 ∧
      (((ctor Kind.Param).bindOperand 1000 NdbQueryOperationDefImpl.pkOp).2.bindOperand 1000
          NdbQueryOperationDefImpl.scanOp).2
        = ((ctor Kind.Param).bindOperand 1000 NdbQueryOperationDefImpl.pkOp).2) :=
  ⟨rfl, bindOperand_idempotent (ctor Kind.Param) 1000 NdbQueryOperationDefImpl.pkOp
    NdbQueryOperationDefImpl.scanOp rfl⟩

end NdbQueryOperandImpl

namespace NdbQueryBuilderImpl

/-- A builder that has an error keeps its state across `setErrorCode`. -/
theorem setErrorCode_of_hasError (b : NdbQueryBuilderImpl) (code : Int)
    (h : b.hasError = true) : b.setErrorCode code = b := by
  unfold hasError at h
  unfold setErrorCode
  have : b.m_error.code ≠ 0 := by simpa using h
  rw [if_neg this]

/-- A builder that has an error keeps its state across any sequence of
`setErrorCode` calls. -/
theorem setErrorCodes_of_hasError (codes : List Int) (b : NdbQueryBuilderImpl)
    (h : b.hasError = true) : b.setErrorCodes codes = b := by
  induction codes with
  | nil => rfl
  | cons c cs ih =>
    unfold setErrorCodes at *
    rw [List.foldl_cons, setErrorCode_of_hasError b c h]
    exact ih

/-- The error code after a sequence of `setErrorCode` calls is the first nonzero
value among the initial code and the arguments, 0 if there is none. -/
theorem setErrorCodes_code (codes : List Int) :
    ∀ b : NdbQueryBuilderImpl, (b.setErrorCodes codes).m_error.code =
      ((b.m_error.code :: codes).find? (fun c => c != 0)).getD 0 := by
  induction codes with
  | nil =>
    intro b
    by_cases h : b.m_error.code = 0
    · rw [List.find?_cons_of_neg _ (by simp [h])]
      simpa [setErrorCodes] using h
    · rw [List.find?_cons_of_pos _ (by simpa using h)]
      rfl
  | cons c cs ih =>
    intro b
    by_cases h : b.m_error.code = 0
    · have hs : b.setErrorCodes (c :: cs) = (b.setErrorCode c).setErrorCodes cs := rfl
      rw [hs, ih]
      have hc : (b.setErrorCode c).m_error.code = c := by
        unfold setErrorCode
        rw [if_pos h]
      rw [hc, List.find?_cons_of_neg (c :: cs) (by simp [h])]
    · have hE : b.hasError = true := by simpa [hasError] using h
      rw [setErrorCodes_of_hasError _ b hE, List.find?_cons_of_pos _ (by simpa using h)]
      rfl

/-- C13: for every builder error state and every sequence of `setErrorCode`
calls, the resulting code is the first nonzero value among the initial code
followed by the arguments in order (0 if all are 0); once the code is nonzero
(`hasError()`), no later `setErrorCode` call changes it. -/
theorem first_error_wins (b : NdbQueryBuilderImpl) (codes later : List Int) :
    (b.setErrorCodes codes).m_error.code =
      ((b.m_error.code :: codes).find? (fun c => c != 0)).getD 0 ∧
    ((b.setErrorCodes codes).hasError = true →
      (b.setErrorCodes codes).setErrorCodes later = b.setErrorCodes codes) :=
  ⟨setErrorCodes_code codes b, fun h => setErrorCodes_of_hasError later _ h⟩

end NdbQueryBuilderImpl

/-! ## Numbering of the operations, scan test, pruning, conversions -/

namespace NdbQueryOperationDefImpl

/-- The effect of `assignQueryOperationId` when the ids the operation takes are
below 2^32: the id stored, the ids the operation stands for, the counter, and the
members left alone. -/
theorem assign_first (op : NdbQueryOperationDefImpl) (start : Nat)
    (h : start + op.idCount ≤ UINT32_MOD) :
    (op.assignQueryOperationId start).2.2.m_id + 1 = start + op.idCount ∧
    idsConsumed (op.assignQueryOperationId start).2.2 = List.range' start op.idCount ∧
    (op.assignQueryOperationId start).2.1 = (start + op.idCount) % UINT32_MOD ∧
    (op.assignQueryOperationId start).2.2.getType = op.getType := by
  unfold idCount at *
  unfold assignQueryOperationId idsConsumed
  simp only [UINT32_MOD] at *
  by_cases hU : op.getType = Type_.UniqueIndexAccess
  · simp only [hU, if_true] at h ⊢
    have h1 : (start + 1) % 4294967296 = start + 1 := by omega
    have h2 : (start + 1 + 4294967296 - 1) % 4294967296 = start := by omega
    simp only [h1, h2]
    simp [List.range'_succ]
  · simp only [hU, if_false] at h ⊢
    simp [List.range'_succ]

/-- An operation takes one or two ids. -/
theorem idCount_pos (op : NdbQueryOperationDefImpl) : 0 < op.idCount := by
  unfold idCount
  split <;> decide

/-- A list of operations that takes no id is empty. -/
theorem eq_nil_of_idCountAll (ops : List NdbQueryOperationDefImpl)
    (h : idCountAll ops = 0) : ops = [] := by
  cases ops with
  | nil => rfl
  | cons op ops =>
    have := idCount_pos op
    simp only [idCountAll, List.map_cons, List.sum_cons] at h
    omega

/-- One step of the numbering. -/
theorem assignAll_cons (start : Nat) (op : NdbQueryOperationDefImpl)
    (ops : List NdbQueryOperationDefImpl) :
    assignAll start (op :: ops) =
      ((assignAll (op.assignQueryOperationId start).2.1 ops).1,
        (op.assignQueryOperationId start).2.2 ::
          (assignAll (op.assignQueryOperationId start).2.1 ops).2) := rfl

/-- Without wrap-around of the counter the ids the numbered operations stand
for are, in build order, the consecutive numbers from the initial counter, and
the final counter is the initial one advanced by their number. -/
theorem assignAll_consumed (ops : List NdbQueryOperationDefImpl) :
    ∀ start, start + idCountAll ops ≤ UINT32_MOD →
      (assignAll start ops).2.flatMap idsConsumed = List.range' start (idCountAll ops) ∧
      (assignAll start ops).1 % UINT32_MOD = (start + idCountAll ops) % UINT32_MOD := by
  induction ops with
  | nil =>
    intro start _
    simp [assignAll, idCountAll]
  | cons op ops ih =>
    intro start h
    have hsum : idCountAll (op :: ops) = op.idCount + idCountAll ops := by
      simp [idCountAll]
    rw [hsum] at h ⊢
    obtain ⟨_, h2, h3, _⟩ := assign_first op start (by omega)
    rw [assignAll_cons]
    simp only [List.flatMap_cons, h2, h3]
    by_cases hlt : start + op.idCount < UINT32_MOD
    · rw [Nat.mod_eq_of_lt hlt]
      obtain ⟨i1, i2⟩ := ih (start + op.idCount) (by omega)
      rw [i1, i2]
      constructor
      · rw [List.range'_append_1, Nat.add_comm]
      · rw [Nat.add_assoc]
    · have h0 : idCountAll ops = 0 := by omega
      have hnil := eq_nil_of_idCountAll ops h0
      subst hnil
      simp [assignAll, idCountAll]

/-- Without wrap-around of the counter the ids of the numbered operations are
strictly increasing in build order and none is below the initial counter. -/
theorem assignAll_ids (ops : List NdbQueryOperationDefImpl) :
    ∀ start, start + idCountAll ops ≤ UINT32_MOD →
      ((assignAll start ops).2.map (fun op => op.m_id)).Pairwise (fun a b => a < b) ∧
      ∀ x, x ∈ (assignAll start ops).2.map (fun op => op.m_id) → start ≤ x := by
  induction ops with
  | nil =>
    intro start _
    simp [assignAll]
  | cons op ops ih =>
    intro start h
    have hsum : idCountAll (op :: ops) = op.idCount + idCountAll ops := by
      simp [idCountAll]
    rw [hsum] at h
    obtain ⟨h1, _, h3, _⟩ := assign_first op start (by omega)
    have hpos := idCount_pos op
    rw [assignAll_cons]
    simp only [List.map_cons, List.pairwise_cons, List.mem_cons]
    by_cases hlt : start + op.idCount < UINT32_MOD
    · rw [h3, Nat.mod_eq_of_lt hlt]
      obtain ⟨i1, i2⟩ := ih (start + op.idCount) (by omega)
      refine ⟨⟨?_, i1⟩, ?_⟩
      · intro a ha
        have := i2 a ha
        omega
      · intro x hx
        rcases hx with hx | hx
        · omega
        · have := i2 x hx
          omega
    · have h0 : idCountAll ops = 0 := by omega
      have hnil := eq_nil_of_idCountAll ops h0
      subst hnil
      simp only [assignAll, List.map_nil, List.not_mem_nil, false_imp_iff, implies_true,
        List.Pairwise.nil, and_self, or_false, true_and]
      intro x hx
      omega

/-- The id of the operation at position `k` of a list of unique-index accesses
numbered from the counter `s`, wrap-around included. -/
theorem ids_replicate_unique (n : Nat) :
    ∀ s k, k < n →
      ((assignAll s (List.replicate n uniqueOp)).2.map (fun op => op.m_id))[k]? =
        some ((s + 2 * k + 1) % UINT32_MOD) := by
  induction n with
  | zero => intro s k hk; omega
  | succ n ih =>
    intro s k hk
    rw [List.replicate_succ, assignAll_cons, List.map_cons]
    have hc : (uniqueOp.assignQueryOperationId s).2.1 = (s + 2) % UINT32_MOD := by
      simp only [assignQueryOperationId, uniqueOp, ctor, if_true, UINT32_MOD]
      omega
    have hi : (uniqueOp.assignQueryOperationId s).2.2.m_id = (s + 1) % UINT32_MOD := by
      simp only [assignQueryOperationId, uniqueOp, ctor, if_true]
    cases k with
    | zero => simp [hi]
    | succ k =>
      rw [List.getElem?_cons_succ, hc, ih _ k (by omega)]
      congr 1
      simp only [UINT32_MOD]
      omega

/-- C14 (as amended): as long as the ids taken are below 2^32 and the counter
does not wrap, `assignQueryOperationId(nodeId)` advances the counter by exactly
two for a `UniqueIndexAccess` operation, giving the id `nodeId+1` (the index id
`m_id-1` being `nodeId`), and by exactly one for every other type, giving the id
`nodeId`; the returned value is the id stored in the operation. -/
theorem assignQueryOperationId_spec (op : NdbQueryOperationDefImpl) (nodeId : Nat)
    (h : nodeId + op.idCount < UINT32_MOD) :
    (op.getType = Type_.UniqueIndexAccess →
      (op.assignQueryOperationId nodeId).2.1 = nodeId + 2 ∧
      (op.assignQueryOperationId nodeId).2.2.getQueryOperationId = nodeId + 1 ∧
      ((op.assignQueryOperationId nodeId).2.2.m_id + UINT32_MOD - 1) % UINT32_MOD = nodeId) ∧
    (op.getType ≠ Type_.UniqueIndexAccess →
      (op.assignQueryOperationId nodeId).2.1 = nodeId + 1 ∧
      (op.assignQueryOperationId nodeId).2.2.getQueryOperationId = nodeId) ∧
    (op.assignQueryOperationId nodeId).1
      = (op.assignQueryOperationId nodeId).2.2.getQueryOperationId ∧
    (op.assignQueryOperationId nodeId).2.2.getType = op.getType ∧
    (op.assignQueryOperationId nodeId).2.2.getQueryOperationIx = op.getQueryOperationIx := by
  unfold idCount at h
  unfold assignQueryOperationId getQueryOperationId getQueryOperationIx
  simp only [UINT32_MOD] at *
  by_cases hU : op.getType = Type_.UniqueIndexAccess
  · simp only [hU, if_true] at h ⊢
    simp
    omega
  · simp only [hU, if_false] at h ⊢
    simp
    omega

end NdbQueryOperationDefImpl

namespace NdbQueryOperationDefImpl

/-- A list of numbers holding the same value at two positions is not strictly
increasing. -/
theorem not_pairwise_of_getElem? (l : List Nat) (i j a : Nat) (hij : i < j)
    (hi : l[i]? = some a) (hj : l[j]? = some a) : ¬ l.Pairwise (fun x y => x < y) := by
  intro hp
  obtain ⟨h1, e1⟩ := List.getElem?_eq_some_iff.mp hi
  obtain ⟨h2, e2⟩ := List.getElem?_eq_some_iff.mp hj
  have := (List.pairwise_iff_getElem.mp hp) i j h1 h2 hij
  omega

/-- C14, an instance: a unique-index access numbered at counter 5. -/
theorem assignQueryOperationId_spec_witness :
    5 + uniqueOp.idCount < UINT32_MOD ∧
    ((uniqueOp.getType = Type_.UniqueIndexAccess →
        (uniqueOp.assignQueryOperationId 5).2.1 = 5 + 2 ∧
        (uniqueOp.assignQueryOperationId 5).2.2.getQueryOperationId = 5 + 1 ∧
        ((uniqueOp.assignQueryOperationId 5).2.2.m_id + UINT32_MOD - 1) % UINT32_MOD = 5) ∧
      (uniqueOp.getType ≠ Type_.UniqueIndexAccess →
        (uniqueOp.assignQueryOperationId 5).2.1 = 5 + 1 ∧
        (uniqueOp.assignQueryOperationId 5).2.2.getQueryOperationId = 5) ∧
      (uniqueOp.assignQueryOperationId 5).1
        = (uniqueOp.assignQueryOperationId 5).2.2.getQueryOperationId ∧
      (uniqueOp.assignQueryOperationId 5).2.2.getType = uniqueOp.getType ∧
      (uniqueOp.assignQueryOperationId 5).2.2.getQueryOperationIx
        = uniqueOp.getQueryOperationIx) :=
  ⟨by decide, assignQueryOperationId_spec uniqueOp 5 (by decide)⟩

/-- C14 as stated fails when the `Uint32` counter wraps: at `nodeId = 4294967295`
a primary-key access leaves the counter at 0, not advanced by one, and a
unique-index access gets the id 0, not `nodeId+1`, with the counter at 1. -/
theorem assignQueryOperationId_wraps :
    (pkOp.assignQueryOperationId 4294967295).2.1 = 0 ∧
    (pkOp.assignQueryOperationId 4294967295).2.1 ≠ 4294967295 + 1 ∧
    (uniqueOp.assignQueryOperationId 4294967295).2.2.getQueryOperationId = 0 ∧
    (uniqueOp.assignQueryOperationId 4294967295).2.2.getQueryOperationId ≠ 4294967295 + 1 ∧
    (uniqueOp.assignQueryOperationId 4294967295).2.1 = 1 := by
  decide

/-- C15 (as amended): for every list of operations numbered in build order from
one shared counter, as long as all the ids taken are below 2^32 (initial counter
plus one id per operation plus one more per `UniqueIndexAccess` operation is at
most 2^32), the operation ids are strictly increasing in build order and all the
ids consumed, each operation's id together with `id-1` for every
`UniqueIndexAccess` operation, are pairwise distinct. -/
theorem node_ids_never_reused (ops : List NdbQueryOperationDefImpl) (start : Nat)
    (h : start + idCountAll ops ≤ UINT32_MOD) :
    ((assignAll start ops).2.map (fun op => op.getQueryOperationId)).Pairwise
      (fun a b => a < b) ∧
    ((assignAll start ops).2.flatMap idsConsumed).Nodup := by
  refine ⟨(assignAll_ids ops start h).1, ?_⟩
  rw [(assignAll_consumed ops start h).1]
  exact List.nodup_range' start (idCountAll ops)

/-- C15, an instance: a primary-key access, a unique-index access, an index scan
and another unique-index access numbered from 0 get the ids 0, 2, 3, 5. -/
theorem node_ids_never_reused_witness :
    0 + idCountAll [pkOp, uniqueOp, scanOp, uniqueOp] ≤ UINT32_MOD ∧
    (((assignAll 0 [pkOp, uniqueOp, scanOp, uniqueOp]).2.map
        (fun op => op.getQueryOperationId)).Pairwise (fun a b => a < b) ∧
      ((assignAll 0 [pkOp, uniqueOp, scanOp, uniqueOp]).2.flatMap idsConsumed).Nodup) :=
  ⟨by decide, node_ids_never_reused [pkOp, uniqueOp, scanOp, uniqueOp] 0 (by decide)⟩

/-- C17: the default `checkPrunable` sets `isPruned` to false, returns 0 and
leaves `hashValue` unchanged, for every key-info buffer and every prior value of
the outputs. -/
theorem checkPrunable_default (op : NdbQueryOperationDefImpl) (keyInfo : Uint32Buffer)
    (isPruned : Bool) (hashValue : Nat) :
    (op.checkPrunable keyInfo isPruned hashValue).1 = 0 ∧
    (op.checkPrunable keyInfo isPruned hashValue).2.1 = false ∧
    (op.checkPrunable keyInfo isPruned hashValue).2.2 = hashValue :=
  ⟨rfl, rfl, rfl⟩

end NdbQueryOperationDefImpl

namespace NdbQueryDefImpl

/-- C16: `isScanQuery()` of a query definition whose operation list is not empty
equals `isScanOperation()` of the operation at index 0, whatever the other
operations are. -/
theorem isScanQuery_rootOperation (d : NdbQueryDefImpl) (root : NdbQueryOperationDefImpl)
    (others : List NdbQueryOperationDefImpl) (h : d.m_operations = root :: others) :
    d.isScanQuery = some root.isScanOperation := by
  unfold isScanQuery
  rw [h]
  simp

/-- C16, an instance: a primary-key access root with an index scan child is not
a scan query. -/
theorem isScanQuery_rootOperation_witness :
    ({ m_operations := [NdbQueryOperationDefImpl.pkOp, NdbQueryOperationDefImpl.scanOp] } :
        NdbQueryDefImpl).m_operations
      = NdbQueryOperationDefImpl.pkOp :: [NdbQueryOperationDefImpl.scanOp] ∧
    NdbQueryOperationDefImpl.scanOp.isScanOperation = true ∧
    NdbQueryOperationDefImpl.pkOp.isScanOperation = false ∧
    ({ m_operations := [NdbQueryOperationDefImpl.pkOp, NdbQueryOperationDefImpl.scanOp] } :
        NdbQueryDefImpl).isScanQuery
      = some NdbQueryOperationDefImpl.pkOp.isScanOperation :=
  ⟨rfl, rfl, rfl,
    isScanQuery_rootOperation _ NdbQueryOperationDefImpl.pkOp [NdbQueryOperationDefImpl.scanOp] rfl⟩

end NdbQueryDefImpl

namespace NdbConstOperandImpl

/-- C18: every one of the 26 conversion routines of the base class returns
`QRY_OPERAND_HAS_WRONG_TYPE` (4803) and leaves the operand, its converted value
(length and storage) included, unchanged. -/
theorem undefined_conversions (o : NdbConstOperandImpl) :
    QRY_OPERAND_HAS_WRONG_TYPE = 4803 ∧
    conversions.length = 26 ∧
    conversions.map (fun f => (f o).1) = List.replicate 26 QRY_OPERAND_HAS_WRONG_TYPE ∧
    conversions.map (fun f => (f o).2) = List.replicate 26 o ∧
    conversions.map (fun f => (f o).2.getSizeInBytes) = List.replicate 26 o.getSizeInBytes ∧
    conversions.map (fun f => (f o).2.m_converted) = List.replicate 26 o.m_converted :=
  ⟨rfl, rfl, rfl, rfl, rfl, rfl⟩

end NdbConstOperandImpl

/-! ## The buffer: the failing allocation, the two paths of `append(word)` -/

namespace Uint32Buffer

/-- C19 (as amended): when `alloc(count)` on a non-exhausted buffer reaches `new`
and `new` fails, `alloc` returns `NULL`, sets the memory-exhausted flag, sets the
size equal to the capacity (so the size changes unless it was the capacity
already), and leaves the capacity and the stored words unchanged. -/
theorem alloc_failure (b : Uint32Buffer) (count i : Nat) (hG : b.callsNew count) :
    (b.alloc count none).1 = none ∧
    (b.alloc count none).2.isMemoryExhausted = true ∧
    (b.alloc count none).2.getSize = b.m_avail ∧
    ((b.alloc count none).2.getSize ≠ b.getSize ↔ b.getSize ≠ b.m_avail) ∧
    (b.alloc count none).2.m_avail = b.m_avail ∧
    (i < b.getSize → (b.alloc count none).2.deref i = b.deref i) := by
  rw [alloc_of_new_none b count hG]
  unfold isMemoryExhausted getSize deref
  refine ⟨rfl, rfl, rfl, ?_, rfl, fun _ => rfl⟩
  constructor
  · intro h e; exact h e.symm
  · intro h e; exact h e.symm

/-- C19, an instance: `alloc(300)` on a buffer holding three words, `new`
failing. -/
theorem alloc_failure_witness :
    threeWords.callsNew 300 ∧
    ((threeWords.alloc 300 none).1 = none ∧
      (threeWords.alloc 300 none).2.isMemoryExhausted = true ∧
      (threeWords.alloc 300 none).2.getSize = threeWords.m_avail ∧
      ((threeWords.alloc 300 none).2.getSize ≠ threeWords.getSize
        ↔ threeWords.getSize ≠ threeWords.m_avail) ∧
      (threeWords.alloc 300 none).2.m_avail = threeWords.m_avail ∧
      (1 < threeWords.getSize → (threeWords.alloc 300 none).2.deref 1 = threeWords.deref 1)) :=
  ⟨by decide, alloc_failure threeWords 300 1 (by decide)⟩

/-- C19 as stated fails on a full buffer: with size 256 and capacity 256,
`alloc(1)` reaches `new`, and when `new` fails the size is 256 afterwards, its
previous value. -/
theorem alloc_failure_keeps_full_size :
    fullLocal.isMemoryExhausted = false ∧
    fullLocal.getSize = 256 ∧
    fullLocal.callsNew 1 ∧
    (fullLocal.alloc 1 none).1 = none ∧
    (fullLocal.alloc 1 none).2.isMemoryExhausted = true ∧
    (fullLocal.alloc 1 none).2.getSize = fullLocal.getSize := by
  decide

/-- C20 (as amended): for every non-exhausted buffer and word `w`, when
allocation succeeds `append(w)` and `alloc(1)` followed by storing `w` in the
returned slot yield the same size, the same word sequence and the same flag (they
may differ in the capacity); when the new size fits the 32-bit size field that
sequence is the previous words followed by `w`. -/
theorem append_agrees_with_alloc (b : Uint32Buffer) (w : Nat) (fresh : Nat → Nat)
    (hR : b.inRange) (hE : b.isMemoryExhausted = false) :
    (b.append w (some fresh)).getSize = (b.appendViaAlloc w (some fresh)).getSize ∧
    (b.append w (some fresh)).words = (b.appendViaAlloc w (some fresh)).words ∧
    (b.append w (some fresh)).isMemoryExhausted
      = (b.appendViaAlloc w (some fresh)).isMemoryExhausted ∧
    (b.getSize + 1 < UINT32_MOD → (b.append w (some fresh)).words = b.words ++ [w]) := by
  unfold isMemoryExhausted at hE
  have hlast : b.getSize + 1 < UINT32_MOD → (b.append w (some fresh)).words = b.words ++ [w] := by
    intro hB
    obtain ⟨a, v, hb, _, haw, hpre⟩ := append_some_shape b w fresh hR.1 hE hB
    rw [hb]
    unfold words
    simp only []
    rw [List.range_succ, List.map_append, List.map_cons, List.map_nil, haw]
    congr 1
    apply List.map_congr_left
    intro x hx
    exact hpre x (List.mem_range.mp hx)
  by_cases hlt : b.m_size < b.m_avail
  · have hB : b.m_size + 1 < UINT32_MOD := by
      have := hR.1
      omega
    obtain ⟨a, ha, hpre⟩ := alloc_some_shape b 1 fresh hE hB
    have h1 : b.append w (some fresh) =
        { b with m_array := storeWord b.m_array b.m_size w, m_size := b.m_size + 1 } := by
      unfold append
      rw [if_pos hlt, Nat.mod_eq_of_lt hB]
    have h2 : b.appendViaAlloc w (some fresh) =
        { m_array := storeWord a b.m_size w,
          m_avail := (b.alloc 1 (some fresh)).2.m_avail,
          m_size := b.m_size + 1, m_memoryExhausted := false } := by
      unfold appendViaAlloc
      rw [ha]
    refine ⟨?_, ?_, ?_, hlast⟩
    · rw [h1, h2]; rfl
    · rw [h1, h2]
      unfold words
      simp only []
      apply List.map_congr_left
      intro x hx
      have hx1 : x < b.m_size + 1 := List.mem_range.mp hx
      by_cases hxe : x = b.m_size
      · simp [storeWord, hxe]
      · have : x < b.m_size := by omega
        simp [storeWord, hxe, hpre x this]
    · rw [h1, h2]
      unfold isMemoryExhausted
      exact hE
  · have h1 : b.append w (some fresh) = b.appendViaAlloc w (some fresh) := by
      unfold append appendViaAlloc
      rw [if_neg hlt]
    rw [← h1]
    exact ⟨rfl, rfl, rfl, hlast⟩

/-- C20, an instance: the word 44 appended to a buffer holding three words. -/
theorem append_agrees_with_alloc_witness :
    (threeWords.inRange ∧ threeWords.isMemoryExhausted = false) ∧
    ((threeWords.append 44 (some zeroWords)).getSize
        = (threeWords.appendViaAlloc 44 (some zeroWords)).getSize ∧
      (threeWords.append 44 (some zeroWords)).words
        = (threeWords.appendViaAlloc 44 (some zeroWords)).words ∧
      (threeWords.append 44 (some zeroWords)).isMemoryExhausted
        = (threeWords.appendViaAlloc 44 (some zeroWords)).isMemoryExhausted ∧
      (threeWords.getSize + 1 < UINT32_MOD →
        (threeWords.append 44 (some zeroWords)).words = threeWords.words ++ [44])) :=
  ⟨⟨by decide, by decide⟩,
    append_agrees_with_alloc threeWords 44 zeroWords (by decide) (by decide)⟩

/-- The word sequence of a buffer of size 0 is empty. -/
theorem words_of_size_zero (b : Uint32Buffer) (h : b.m_size = 0) : b.words = [] := by
  unfold words
  rw [h]
  rfl

end Uint32Buffer

namespace NdbQueryOperationDefImpl
/-- C15 as stated fails when the `Uint32` counter wraps: in a list of 2147483649
unique-index accesses numbered from 0 the first and the last operation both get
the id 1, so the ids are not strictly increasing. -/
theorem node_id_reused :
    ((assignAll 0 (List.replicate 2147483649 uniqueOp)).2.map (fun op => op.m_id))[0]?
      = some 1 ∧
    ((assignAll 0 (List.replicate 2147483649 uniqueOp)).2.map
      (fun op => op.m_id))[2147483648]? = some 1 ∧
    ¬ ((assignAll 0 (List.replicate 2147483649 uniqueOp)).2.map
      (fun op => op.m_id)).Pairwise (fun a b => a < b) :=
  ⟨ids_replicate_unique 2147483649 0 0 (by decide),
    ids_replicate_unique 2147483649 0 2147483648 (by decide),
    not_pairwise_of_getElem? _ 0 2147483648 1 (by decide)
      (ids_replicate_unique 2147483649 0 0 (by decide))
      (ids_replicate_unique 2147483649 0 2147483648 (by decide))⟩

end NdbQueryOperationDefImpl

namespace Uint32Buffer
/-- C20 as stated fails when the size field wraps: on a non-exhausted buffer of
4294967295 words, `append(7)` with allocation succeeding leaves size 0 and an
empty word sequence, which is not the previous words followed by 7. -/
theorem append_word_size_wraps :
    fullSize.isMemoryExhausted = false ∧
    fullSize.getSize = 4294967295 ∧
    (fullSize.append 7 (some zeroWords)).getSize = 0 ∧
    (fullSize.append 7 (some zeroWords)).words = [] ∧
    (fullSize.append 7 (some zeroWords)).words ≠ fullSize.words ++ [7] := by
  have hw : (fullSize.append 7 (some zeroWords)).words = [] :=
    words_of_size_zero _ (by decide)
  exact ⟨by decide, by decide, by decide, hw,
    fun h => List.cons_ne_nil 7 [] (List.append_eq_nil.mp (hw.symm.trans h).symm).2⟩

end Uint32Buffer

/-! ## Closed form of the numbering -/

namespace NdbQueryOperationDefImpl

/-- An operation takes one id, and one more if it is a unique-index access. -/
theorem idCount_eq (op : NdbQueryOperationDefImpl) : op.idCount = 1 + uniqueCount [op] := by
  unfold idCount uniqueCount
  by_cases h : op.getType = Type_.UniqueIndexAccess <;> simp [h]

/-- One more operation in front of a list adds its own count of unique-index
accesses. -/
theorem uniqueCount_cons (op : NdbQueryOperationDefImpl)
    (ops : List NdbQueryOperationDefImpl) :
    uniqueCount (op :: ops) = uniqueCount [op] + uniqueCount ops := by
  unfold uniqueCount
  rw [List.countP_cons, List.countP_cons, List.countP_nil]
  omega

/-- The ids a list of operations takes: one per operation and one more per
unique-index access. -/
theorem idCountAll_eq (ops : List NdbQueryOperationDefImpl) :
    idCountAll ops = ops.length + uniqueCount ops := by
  induction ops with
  | nil => rfl
  | cons op ops ih =>
    have h : idCountAll (op :: ops) = op.idCount + idCountAll ops := by
      simp [idCountAll]
    have h1 := idCount_eq op
    have h2 := uniqueCount_cons op ops
    rw [List.length_cons]
    omega

/-- Without wrap-around the final counter is the initial counter advanced by the
number of ids taken. -/
theorem assignAll_counter (ops : List NdbQueryOperationDefImpl) :
    ∀ start, start + idCountAll ops < UINT32_MOD →
      (assignAll start ops).1 = start + idCountAll ops := by
  induction ops with
  | nil =>
    intro start _
    simp [assignAll, idCountAll]
  | cons op ops ih =>
    intro start h
    have hsum : idCountAll (op :: ops) = op.idCount + idCountAll ops := by
      simp [idCountAll]
    rw [hsum] at h ⊢
    obtain ⟨_, _, h3, _⟩ := assign_first op start (by omega)
    rw [assignAll_cons]
    simp only [h3]
    rw [Nat.mod_eq_of_lt (by omega), ih (start + op.idCount) (by omega)]
    omega

/-- The numbering keeps the ordinal `m_ix` of every operation. -/
theorem assignAll_ix (ops : List NdbQueryOperationDefImpl) :
    ∀ start, (assignAll start ops).2.map (fun op => op.m_ix) = ops.map (fun op => op.m_ix) := by
  induction ops with
  | nil => intro _; rfl
  | cons op ops ih =>
    intro start
    rw [assignAll_cons]
    simp only [List.map_cons]
    rw [ih]
    rfl

/-- Without wrap-around the id of the operation at position `k` is the initial
counter plus `k` plus the number of unique-index accesses at positions
`0..k`. -/
theorem assignAll_id_at (ops : List NdbQueryOperationDefImpl) :
    ∀ start k, start + idCountAll ops ≤ UINT32_MOD → k < ops.length →
      ((assignAll start ops).2.map (fun op => op.m_id))[k]? =
        some (start + k + uniqueCount (ops.take (k + 1))) := by
  induction ops with
  | nil =>
    intro start k _ hk
    simp at hk
  | cons op ops ih =>
    intro start k h hk
    have hsum : idCountAll (op :: ops) = op.idCount + idCountAll ops := by
      simp [idCountAll]
    rw [hsum] at h
    obtain ⟨h1, _, h3, _⟩ := assign_first op start (by omega)
    have hc := idCount_eq op
    rw [assignAll_cons]
    simp only [List.map_cons]
    cases k with
    | zero =>
      simp only [List.getElem?_cons_zero, Nat.zero_add, List.take_succ_cons, List.take_zero,
        Nat.add_zero]
      congr 1
      omega
    | succ k =>
      have hk1 : k < ops.length := by simpa using hk
      have hpos : 0 < idCountAll ops := by
        rcases Nat.eq_zero_or_pos (idCountAll ops) with h0 | h0
        · have := eq_nil_of_idCountAll ops h0
          subst this
          simp at hk1
        · exact h0
      rw [List.getElem?_cons_succ, h3, Nat.mod_eq_of_lt (by omega),
        ih (start + op.idCount) k (by omega) hk1, List.take_succ_cons]
      have h2 := uniqueCount_cons op (List.take (k + 1) ops)
      congr 1
      omega

/-- The ordinal and the id of the operation at position `k` of a list of
unique-index accesses built from ordinal `ix` and numbered from the counter `s`,
wrap-around included. -/
theorem numbered_uniqueBuild (n : Nat) :
    ∀ ix s k, k < n →
      ((assignAll s (uniqueBuild ix n)).2.map
          (fun op => (op.getQueryOperationIx, op.getQueryOperationId)))[k]? =
        some (ix + k, (s + 2 * k + 1) % UINT32_MOD) := by
  induction n with
  | zero => intro ix s k hk; omega
  | succ n ih =>
    intro ix s k hk
    have hb : uniqueBuild ix (n + 1) =
        ctor Type_.UniqueIndexAccess false ix :: uniqueBuild (ix + 1) n := by
      unfold uniqueBuild
      rw [List.range'_succ, List.map_cons]
    rw [hb, assignAll_cons, List.map_cons]
    have hc : ((ctor Type_.UniqueIndexAccess false ix).assignQueryOperationId s).2.1
        = (s + 2) % UINT32_MOD := by
      simp only [assignQueryOperationId, ctor, if_true, UINT32_MOD]
      omega
    have hi : (((ctor Type_.UniqueIndexAccess false ix).assignQueryOperationId s).2.2.getQueryOperationIx,
        ((ctor Type_.UniqueIndexAccess false ix).assignQueryOperationId s).2.2.getQueryOperationId)
        = (ix, (s + 1) % UINT32_MOD) := by
      simp only [assignQueryOperationId, ctor, if_true, getQueryOperationIx, getQueryOperationId]
    cases k with
    | zero => simp [hi]
    | succ k =>
      rw [List.getElem?_cons_succ, hc, ih _ _ k (by omega)]
      congr 2
      · omega
      · simp only [UINT32_MOD]
        omega

/-- The final counter after numbering a non-empty list of unique-index accesses
from the counter `s`, wrap-around included. -/
theorem counter_uniqueBuild (n : Nat) :
    ∀ ix s, (assignAll s (uniqueBuild ix (n + 1))).1 = (s + 2 * (n + 1)) % UINT32_MOD := by
  induction n with
  | zero =>
    intro ix s
    simp only [uniqueBuild, List.range'_succ, List.range'_zero, List.map_cons, List.map_nil,
      assignAll, assignQueryOperationId, ctor, if_true, UINT32_MOD]
    omega
  | succ n ih =>
    intro ix s
    have hb : uniqueBuild ix (n + 1 + 1) =
        ctor Type_.UniqueIndexAccess false ix :: uniqueBuild (ix + 1) (n + 1) := by
      unfold uniqueBuild
      rw [List.range'_succ, List.map_cons]
    have hc : ((ctor Type_.UniqueIndexAccess false ix).assignQueryOperationId s).2.1
        = (s + 2) % UINT32_MOD := by
      simp only [assignQueryOperationId, ctor, if_true, UINT32_MOD]
      omega
    rw [hb, assignAll_cons]
    simp only [hc]
    rw [ih]
    simp only [UINT32_MOD]
    omega

/-- C21 (as amended): for every list of `n` operations in build order numbered by
`assignQueryOperationId` with the counter starting at 0, as long as `n` plus the
number of `UniqueIndexAccess` operations is below 2^32 (the counter does not
wrap), the id of the operation at build position `k` is `k` plus the number of
`UniqueIndexAccess` operations at positions `0..k`, the final counter is `n`
plus the number of `UniqueIndexAccess` operations, and every node id is at least
the operation's build ordinal, with equality exactly when no `UniqueIndexAccess`
occurs at or before it. -/
theorem numbering_closed_form (ops : List NdbQueryOperationDefImpl) (k : Nat)
    (hBuild : inBuildOrder ops) (hN : ops.length + uniqueCount ops < UINT32_MOD) :
    (k < ops.length →
      ∃ op, (assignAll 0 ops).2[k]? = some op ∧
        op.getQueryOperationIx = k ∧
        op.getQueryOperationId = k + uniqueCount (ops.take (k + 1)) ∧
        op.getQueryOperationIx ≤ op.getQueryOperationId ∧
        (op.getQueryOperationId = op.getQueryOperationIx ↔
          uniqueCount (ops.take (k + 1)) = 0)) ∧
    (assignAll 0 ops).1 = ops.length + uniqueCount ops := by
  have hAll := idCountAll_eq ops
  constructor
  · intro hk
    have hid := assignAll_id_at ops 0 k (by omega) hk
    have hix : ((assignAll 0 ops).2.map (fun op => op.m_ix))[k]? = some k := by
      rw [assignAll_ix]
      unfold inBuildOrder getQueryOperationIx at hBuild
      rw [hBuild, List.getElem?_range hk]
    rw [List.getElem?_map] at hid hix
    cases hop : (assignAll 0 ops).2[k]? with
    | none =>
      rw [hop] at hid
      simp at hid
    | some op =>
      rw [hop] at hid hix
      simp only [Option.map_some', Option.some.injEq, Nat.zero_add] at hid hix
      refine ⟨op, rfl, hix, hid, ?_, ?_⟩
      · unfold getQueryOperationIx getQueryOperationId
        omega
      · unfold getQueryOperationIx getQueryOperationId
        omega
  · have := assignAll_counter ops 0 (by omega)
    omega

/-- C21, an instance: a primary-key access, a unique-index access, an index scan
and a unique-index access in build order; the scan at position 2 gets the id
3. -/
theorem numbering_closed_form_witness :
    (inBuildOrder sampleQuery ∧ sampleQuery.length + uniqueCount sampleQuery < UINT32_MOD) ∧
    ((2 < sampleQuery.length →
        ∃ op, (assignAll 0 sampleQuery).2[2]? = some op ∧
          op.getQueryOperationIx = 2 ∧
          op.getQueryOperationId = 2 + uniqueCount (sampleQuery.take (2 + 1)) ∧
          op.getQueryOperationIx ≤ op.getQueryOperationId ∧
          (op.getQueryOperationId = op.getQueryOperationIx ↔
            uniqueCount (sampleQuery.take (2 + 1)) = 0)) ∧
      (assignAll 0 sampleQuery).1 = sampleQuery.length + uniqueCount sampleQuery) :=
  ⟨⟨by decide, by decide⟩, numbering_closed_form sampleQuery 2 (by decide) (by decide)⟩

/-- C21 as stated fails when the `Uint32` counter wraps: in a list of 2147483649
unique-index accesses in build order numbered from 0, the operation at build
position 2147483648 gets the id 1, below its build ordinal, and the final
counter is 2, not 2147483649 + 2147483649. -/
theorem numbering_wraps :
    ((assignAll 0 (uniqueBuild 0 2147483649)).2.map
        (fun op => (op.getQueryOperationIx, op.getQueryOperationId)))[2147483648]?
      = some (2147483648, 1) ∧
    (assignAll 0 (uniqueBuild 0 2147483649)).1 = 2 :=
  ⟨numbered_uniqueBuild 2147483649 0 0 2147483648 (by decide),
    counter_uniqueBuild 2147483648 0 0⟩

end NdbQueryOperationDefImpl
